import Mathlib

/-!
Verification development for the ray-tracing intersection core
(`src/hittable.rs`, `src/math.rs`).

Modelling conventions:

* `f64` values are idealized as exact rationals (`ℚ`).  Division by zero
  therefore yields `0` (the Lean convention) instead of an IEEE special
  value; theorems that depend on division add the corresponding nonzero
  hypotheses.  A dedicated model `FP` of IEEE special values (NaN, ±∞)
  is used for the claims that are explicitly about them.
* The query bounds `t_min`/`t_max` are modelled by `TB` (three cases:
  `-∞`, finite, `+∞`) because `hit_constant_medium` calls `hit` with
  `-f64::INFINITY` and `f64::INFINITY` bounds.
* The transcendental library functions (`f64::sqrt`, `acos`, `atan2`,
  `ln`, `sin`, `cos`) have no exact rational counterpart; the development
  is parametric in a record `RealFns` of rational stand-ins for them, and
  theorems state hypotheses (for example exactness of the square root at
  the discriminant in question) where a result depends on their values.
* The random number generator (the `rand` crate, not part of the sources)
  is modelled from the spec as a stream of rationals `RNG := ℕ → ℚ`: each
  draw takes the head and shifts the stream.  The uniform sources are
  assumed (in theorems, as hypotheses) to produce values in their
  documented ranges.
* `Ray`, `AABB` and `MaterialHandle` (`ray.rs`, `aabb.rs`, `material.rs`)
  are not under `src/`; they are modelled from the spec where used, as
  marked on each definition.
-/

namespace RTOW

/-- A `f64` query bound: minus infinity, a finite rational, or plus infinity.
`hit` is called with `±∞` bounds by `hit_constant_medium`, so bounds cannot
be plain rationals. -/
inductive TB where
  | ninf : TB
  | fin (q : ℚ) : TB
  | pinf : TB
deriving DecidableEq, Repr

/-- Strict order on bounds, with `-∞ < q < +∞` for every finite `q`. -/
def TB.ltB : TB → TB → Bool
  | .ninf, .ninf => false
  | .ninf, .fin _ => true
  | .ninf, .pinf => true
  | .fin _, .ninf => false
  | .fin a, .fin b => a < b
  | .fin _, .pinf => true
  | .pinf, _ => false

/-- Non-strict order on bounds. -/
def TB.leB (a b : TB) : Bool := !(TB.ltB b a)

/-- Maximum of two bounds. -/
def TB.maxT (a b : TB) : TB := if TB.ltB a b then b else a

/-- Minimum of two bounds. -/
def TB.minT (a b : TB) : TB := if TB.ltB b a then b else a

/-- The 3-component vector of `math.rs` (`Vector3`, aliased `Point3`,
`Color`), with `f64` components idealized as rationals. -/
structure Vector3 where
  x : ℚ
  y : ℚ
  z : ℚ
deriving DecidableEq, Repr

instance : Add Vector3 := ⟨fun u v => ⟨u.x + v.x, u.y + v.y, u.z + v.z⟩⟩
instance : Sub Vector3 := ⟨fun u v => ⟨u.x - v.x, u.y - v.y, u.z - v.z⟩⟩
instance : Neg Vector3 := ⟨fun v => ⟨-v.x, -v.y, -v.z⟩⟩
instance : SMul ℚ Vector3 := ⟨fun q v => ⟨q * v.x, q * v.y, q * v.z⟩⟩

/-- `Vector3::dot` from `math.rs`. -/
def Vector3.dot (u v : Vector3) : ℚ := u.x * v.x + u.y * v.y + u.z * v.z

/-- `Vector3::length_squared` from `math.rs`. -/
def Vector3.length_squared (v : Vector3) : ℚ := v.x * v.x + v.y * v.y + v.z * v.z

/-- `impl Div<f64> for Vector3` from `math.rs`: `v / q = (1/q) * v`. -/
def Vector3.divQ (v : Vector3) (q : ℚ) : Vector3 := (1 / q) • v

/-- `PI` from `math.rs` (defined there as this literal). -/
def PI : ℚ := 3.1415926535897932385

/-- `degrees_to_radians` from `math.rs`. -/
def degrees_to_radians (degrees : ℚ) : ℚ := degrees * PI / 180

/-- Rational stand-ins for the `f64` transcendental library functions used
by the sources; the development is parametric in them. -/
structure RealFns where
  sqrtQ : ℚ → ℚ
  acosQ : ℚ → ℚ
  atan2Q : ℚ → ℚ → ℚ
  lnQ : ℚ → ℚ
  sinQ : ℚ → ℚ
  cosQ : ℚ → ℚ

/-- Integer square root based stand-in for `f64::sqrt`: exact on perfect
squares of rationals, an approximation elsewhere, and never negative. -/
def ratSqrt (q : ℚ) : ℚ := (Nat.sqrt q.num.toNat : ℚ) / (Nat.sqrt q.den : ℚ)

/-- A concrete `RealFns` instance used by witnesses: `ratSqrt` for the
square root, `u - 1` for `ln u` (matching the sign of the real `ln` on
`(0, 1]`), and zero elsewhere. -/
def defaultFns : RealFns :=
  { sqrtQ := ratSqrt
    acosQ := fun _ => 0
    atan2Q := fun _ _ => 0
    lnQ := fun u => u - 1
    sinQ := fun _ => 0
    cosQ := fun _ => 0 }

/-- `sphere_uv` from `math.rs`. -/
def sphere_uv (F : RealFns) (p : Vector3) : ℚ × ℚ :=
  let theta := F.acosQ (-p.y)
  let phi := F.atan2Q (-p.z) p.x + PI
  (phi / (2 * PI), theta / PI)

/-- Modelled from the spec: the random source (the `rand` crate) is not in
`src/`; it is modelled as a stream of rationals, each draw taking the head
and shifting the stream. -/
def RNG : Type := ℕ → ℚ

/-- Advance the stream by one draw. -/
def RNG.shift (g : RNG) : RNG := fun n => g (n + 1)

/-- Modelled from the spec: `random_double` of `math.rs` wraps
`rng.gen()`, the uniform source on `[0,1)`; the stream yields the drawn
value directly. -/
def random_double (g : RNG) : ℚ × RNG := (g 0, g.shift)

/-- Modelled from the spec: `random_double_range` of `math.rs` wraps
`rng.gen_range(min..=max)`, the uniform ranged source (inclusive); the
stream yields the drawn value directly, and theorems hypothesize
`min ≤ draw ≤ max` where it matters. The `min`/`max` arguments do not
otherwise enter the result. -/
def random_double_range (_min _max : ℚ) (g : RNG) : ℚ × RNG := (g 0, g.shift)

/-- Truncation toward zero, the semantics of Rust `as i32` on an in-range
`f64`. -/
def truncToInt (q : ℚ) : ℤ := if 0 ≤ q then ⌊q⌋ else -⌊-q⌋

/-- `random_int_range` from `math.rs`: draw a ranged double in
`[min, max+1]` (inclusive, per `gen_range(min..=(max+1))` semantics) and
truncate it to an integer. -/
def random_int_range (min max : ℤ) (g : RNG) : ℤ × RNG :=
  let (u, g1) := random_double_range (min : ℚ) ((max + 1 : ℤ) : ℚ) g
  (truncToInt u, g1)

/-- Modelled from the spec: `Ray` (`ray.rs` is not in `src/`): origin,
direction and a scalar time stamp. -/
structure Ray where
  origin : Vector3
  direction : Vector3
  time : ℚ
deriving DecidableEq, Repr

/-- Modelled from the spec: `Ray::with_time` constructs a ray from origin,
direction and time. -/
def Ray.with_time (origin direction : Vector3) (time : ℚ) : Ray :=
  ⟨origin, direction, time⟩

/-- Modelled from the spec: `ray.at(t)` is the point at parametric
distance `t`, `origin + t * direction`. -/
def Ray.at (r : Ray) (t : ℚ) : Vector3 := r.origin + t • r.direction

/-- Modelled from the spec: `AABB` (`aabb.rs` is not in `src/`): ordered
pair of minimal and maximal corners. -/
structure AABB where
  minimum : Vector3
  maximum : Vector3
deriving DecidableEq, Repr

/-- Modelled from the spec: `AABB::new`. -/
def AABB.new (minimum maximum : Vector3) : AABB := ⟨minimum, maximum⟩

/-- Modelled from the spec: `AABB::surrounding_box`, the componentwise min
of minima and max of maxima. -/
def AABB.surrounding_box (a b : AABB) : AABB :=
  ⟨⟨min a.minimum.x b.minimum.x, min a.minimum.y b.minimum.y, min a.minimum.z b.minimum.z⟩,
   ⟨max a.maximum.x b.maximum.x, max a.maximum.y b.maximum.y, max a.maximum.z b.maximum.z⟩⟩

/-- Modelled from the spec: one axis of the slab test.  For a nonzero
direction component the entry and exit parameters are `(bound - origin) /
d`, swapped when `d < 0`, and intersected with the running interval, which
must stay nonempty (strictly, per the slab method's `t_max <= t_min`
rejection).  A zero direction component is the parallel case: the ray is
inside the slab iff the origin coordinate is, which is the mathematically
consistent behavior the spec requires for `±∞` entry and exit values. -/
def slabAxis (mn mx o d : ℚ) : Option (TB × TB) → Option (TB × TB)
  | none => none
  | some (lo, hi) =>
    if d = 0 then
      if o < mn ∨ mx < o then none else some (lo, hi)
    else
      let t0 := (mn - o) / d
      let t1 := (mx - o) / d
      let a := if d < 0 then t1 else t0
      let b := if d < 0 then t0 else t1
      let lo' := TB.maxT lo (.fin a)
      let hi' := TB.minT hi (.fin b)
      if TB.leB hi' lo' then none else some (lo', hi')

/-- Modelled from the spec: `AABB::hit`, the slab test over the three
axes. -/
def AABB.hit (bb : AABB) (r : Ray) (t_min t_max : TB) : Bool :=
  (slabAxis bb.minimum.z bb.maximum.z r.origin.z r.direction.z
    (slabAxis bb.minimum.y bb.maximum.y r.origin.y r.direction.y
      (slabAxis bb.minimum.x bb.maximum.x r.origin.x r.direction.x
        (some (t_min, t_max))))).isSome

/-- `MaterialHandle` (`material.rs` is not in `src/`): modelled from the
spec as an opaque equality-comparable key with a default value. -/
abbrev MaterialHandle : Type := ℕ

/-- `HitRecord` from `hittable.rs`. -/
structure HitRecord where
  point : Vector3
  normal : Vector3
  t : ℚ
  front_face : Bool
  mat_handle : MaterialHandle
  u : ℚ
  v : ℚ
deriving DecidableEq, Repr

/-- `HitRecord::new()`: all fields default. -/
def HitRecord.new : HitRecord :=
  ⟨⟨0, 0, 0⟩, ⟨0, 0, 0⟩, 0, false, (0 : ℕ), 0, 0⟩

/-- `HitRecord::set_face_normal` from `hittable.rs`: orient the stored
normal against the given ray's direction and record which side was hit. -/
def HitRecord.set_face_normal (rec : HitRecord) (ray : Ray) (outward_normal : Vector3) :
    HitRecord :=
  if Vector3.dot ray.direction outward_normal < 0 then
    { rec with front_face := true, normal := outward_normal }
  else
    { rec with front_face := false, normal := -outward_normal }

/-- The `Hittable` enum from `hittable.rs`. -/
inductive Hittable where
  | Sphere (mat_handle : MaterialHandle) (center : Vector3) (radius : ℚ)
  | MovingSphere (mat_handle : MaterialHandle) (center_0 center_1 : Vector3)
      (time_0 time_1 radius : ℚ)
  | BvhNode (left right : Hittable) (aabb_box : AABB)
  | XYRect (mat_handle : MaterialHandle) (x0 x1 y0 y1 k : ℚ)
  | XZRect (mat_handle : MaterialHandle) (x0 x1 z0 z1 k : ℚ)
  | YZRect (mat_handle : MaterialHandle) (y0 y1 z0 z1 k : ℚ)
  | Box (mat_handle : MaterialHandle) (min max : Vector3) (sides : List Hittable)
  | Translate (offset : Vector3) (ptr : Hittable)
  | RotateY (sin_theta cos_theta : ℚ) (has_box : Bool) (bbox : AABB) (ptr : Hittable)
  | ConstantMedium (phase_function : MaterialHandle) (boundary : Hittable)
      (neg_inv_density : ℚ)

/-- `Hittable::sphere_bounding_box` from `hittable.rs`. -/
def sphere_bounding_box (center : Vector3) (radius : ℚ) : Option AABB :=
  some (AABB.new (center - ⟨radius, radius, radius⟩) (center + ⟨radius, radius, radius⟩))

/-- `Hittable::get_center_at_time` from `hittable.rs`.  In the source,
`time_0 == time_1` makes this `NaN`-valued; in the rational idealization
the division by zero yields `0` there instead. -/
def get_center_at_time (center_0 center_1 : Vector3) (time_0 time_1 time : ℚ) : Vector3 :=
  center_0 + ((time - time_0) / (time_1 - time_0)) • (center_1 - center_0)

/-- `Hittable::moving_sphere_bounding_box` from `hittable.rs`. -/
def moving_sphere_bounding_box (center_0 center_1 : Vector3) (radius time_0 time_1 : ℚ) :
    Option AABB :=
  let c0 := get_center_at_time center_0 center_1 time_0 time_1 time_0
  let c1 := get_center_at_time center_0 center_1 time_0 time_1 time_1
  let box0 := AABB.new (c0 - ⟨radius, radius, radius⟩) (c0 + ⟨radius, radius, radius⟩)
  let box1 := AABB.new (c1 - ⟨radius, radius, radius⟩) (c1 + ⟨radius, radius, radius⟩)
  some (AABB.surrounding_box box0 box1)

/-- `Hittable::bounding_box` from `hittable.rs`. -/
def Hittable.bounding_box : Hittable → ℚ → ℚ → Option AABB
  | .Sphere _ center radius, _, _ => sphere_bounding_box center radius
  | .MovingSphere _ c0 c1 t0 t1 radius, _, _ => moving_sphere_bounding_box c0 c1 radius t0 t1
  | .BvhNode _ _ aabb_box, _, _ => some aabb_box
  | .XYRect _ x0 x1 y0 y1 k, _, _ =>
      some (AABB.new ⟨x0, y0, k - 0.0001⟩ ⟨x1, y1, k + 0.0001⟩)
  | .XZRect _ x0 x1 z0 z1 k, _, _ =>
      some (AABB.new ⟨x0, k - 0.0001, z0⟩ ⟨x1, k + 0.0001, z1⟩)
  | .YZRect _ y0 y1 z0 z1 k, _, _ =>
      some (AABB.new ⟨k - 0.0001, y0, z0⟩ ⟨k + 0.0001, y1, z1⟩)
  | .Box _ mn mx _, _, _ => some (AABB.new mn mx)
  | .Translate offset ptr, time_0, time_1 =>
      match ptr.bounding_box time_0 time_1 with
      | some aabb => some (AABB.new (aabb.minimum + offset) (aabb.maximum + offset))
      | none => none
  | .RotateY _ _ has_box bbox _, _, _ => if has_box then some bbox else none
  | .ConstantMedium _ boundary _, time_0, time_1 => boundary.bounding_box time_0 time_1

/-- The loop of `hittables_bounding_box` from `hittable.rs`: `final_box`
is overwritten by each member's box (the source does not union it with the
previous value), and any member without a box aborts with `None`. -/
def hbbLoop : List Hittable → ℚ → ℚ → Option AABB → Option AABB
  | [], _, _, final_box => final_box
  | h :: rest, time_0, time_1, _ =>
      match h.bounding_box time_0 time_1 with
      | none => none
      | some b => hbbLoop rest time_0 time_1 (some b)

/-- `hittables_bounding_box` from `hittable.rs`. -/
def hittables_bounding_box (hittables : List Hittable) (time_0 time_1 : ℚ) : Option AABB :=
  if hittables.length = 0 then none
  else hbbLoop hittables time_0 time_1 none

/-- `Hittable::sphere_hit` from `hittable.rs` (shared by `Sphere` and
`MovingSphere`). -/
def sphere_hit (F : RealFns) (center : Vector3) (radius : ℚ) (ray : Ray)
    (t_min t_max : TB) (mat_handle : MaterialHandle) : Option HitRecord :=
  let oc := ray.origin - center
  let a := ray.direction.length_squared
  let half_b := Vector3.dot oc ray.direction
  let c := oc.length_squared - radius * radius
  let discriminant := half_b * half_b - a * c
  if discriminant < 0 then none
  else
    let sqrtd := F.sqrtQ discriminant
    let root1 := (-half_b - sqrtd) / a
    let root2 := (-half_b + sqrtd) / a
    let root? : Option ℚ :=
      if TB.ltB (.fin root1) t_min ∨ TB.ltB t_max (.fin root1) then
        if TB.ltB (.fin root2) t_min ∨ TB.ltB t_max (.fin root2) then none else some root2
      else some root1
    match root? with
    | none => none
    | some root =>
      let point := ray.at root
      let outward_normal := (point - center).divQ radius
      let uv := sphere_uv F outward_normal
      let rec0 := { HitRecord.new with
        mat_handle := mat_handle, t := root, point := point, u := uv.1, v := uv.2 }
      some (rec0.set_face_normal ray outward_normal)

/-- `Hittable::xy_rect_hit` from `hittable.rs`.  In the rational
idealization a zero `direction.z` makes the plane-crossing division yield
`0` rather than an IEEE special value; the `FP` model below covers that
regime. -/
def xy_rect_hit (x0 x1 y0 y1 k : ℚ) (ray : Ray) (t_min t_max : TB)
    (mat_handle : MaterialHandle) : Option HitRecord :=
  let t := (k - ray.origin.z) / ray.direction.z
  if TB.ltB (.fin t) t_min ∨ TB.ltB t_max (.fin t) then none
  else
    let x := ray.origin.x + t * ray.direction.x
    let y := ray.origin.y + t * ray.direction.y
    if x < x0 ∨ x > x1 ∨ y < y0 ∨ y > y1 then none
    else
      let rec0 := { HitRecord.new with
        u := (x - x0) / (x1 - x0), v := (y - y0) / (y1 - y0), t := t,
        mat_handle := mat_handle, point := ray.at t }
      some (rec0.set_face_normal ray ⟨0, 0, 1⟩)

/-- `Hittable::xz_rect_hit` from `hittable.rs`. -/
def xz_rect_hit (x0 x1 z0 z1 k : ℚ) (ray : Ray) (t_min t_max : TB)
    (mat_handle : MaterialHandle) : Option HitRecord :=
  let t := (k - ray.origin.y) / ray.direction.y
  if TB.ltB (.fin t) t_min ∨ TB.ltB t_max (.fin t) then none
  else
    let x := ray.origin.x + t * ray.direction.x
    let z := ray.origin.z + t * ray.direction.z
    if x < x0 ∨ x > x1 ∨ z < z0 ∨ z > z1 then none
    else
      let rec0 := { HitRecord.new with
        u := (x - x0) / (x1 - x0), v := (z - z0) / (z1 - z0), t := t,
        mat_handle := mat_handle, point := ray.at t }
      some (rec0.set_face_normal ray ⟨0, 1, 0⟩)

/-- `Hittable::yz_rect_hit` from `hittable.rs`. -/
def yz_rect_hit (y0 y1 z0 z1 k : ℚ) (ray : Ray) (t_min t_max : TB)
    (mat_handle : MaterialHandle) : Option HitRecord :=
  let t := (k - ray.origin.x) / ray.direction.x
  if TB.ltB (.fin t) t_min ∨ TB.ltB t_max (.fin t) then none
  else
    let y := ray.origin.y + t * ray.direction.y
    let z := ray.origin.z + t * ray.direction.z
    if y < y0 ∨ y > y1 ∨ z < z0 ∨ z > z1 then none
    else
      let rec0 := { HitRecord.new with
        u := (y - y0) / (y1 - y0), v := (z - z0) / (z1 - z0), t := t,
        mat_handle := mat_handle, point := ray.at t }
      some (rec0.set_face_normal ray ⟨1, 0, 0⟩)

mutual

/-- `Hittable::hit` from `hittable.rs`.  The random stream is threaded
explicitly; only the `ConstantMedium` arm consumes a draw (the source's
`debugging` draw is short-circuited away by the constant-false
`ENABLE_DEBUG`). -/
def Hittable.hit (F : RealFns) : Hittable → Ray → TB → TB → RNG →
    Option HitRecord × RNG
  | .Sphere mat_handle center radius, ray, t_min, t_max, g =>
      (sphere_hit F center radius ray t_min t_max mat_handle, g)
  | .MovingSphere mat_handle c0 c1 time_0 time_1 radius, ray, t_min, t_max, g =>
      (sphere_hit F (get_center_at_time c0 c1 time_0 time_1 ray.time) radius ray
        t_min t_max mat_handle, g)
  | .BvhNode left right aabb_box, ray, t_min, t_max, g =>
      bvh_node_hit F left right aabb_box ray t_min t_max g
  | .XYRect mat_handle x0 x1 y0 y1 k, ray, t_min, t_max, g =>
      (xy_rect_hit x0 x1 y0 y1 k ray t_min t_max mat_handle, g)
  | .XZRect mat_handle x0 x1 z0 z1 k, ray, t_min, t_max, g =>
      (xz_rect_hit x0 x1 z0 z1 k ray t_min t_max mat_handle, g)
  | .YZRect mat_handle y0 y1 z0 z1 k, ray, t_min, t_max, g =>
      (yz_rect_hit y0 y1 z0 z1 k ray t_min t_max mat_handle, g)
  | .Box _ _ _ sides, ray, t_min, t_max, g =>
      hit_hittables F sides ray t_min t_max g
  | .Translate offset ptr, ray, t_min, t_max, g =>
      let moved_ray := Ray.with_time (ray.origin - offset) ray.direction ray.time
      match ptr.hit F moved_ray t_min t_max g with
      | (some rec1, g1) =>
          let rec2 := { rec1 with point := rec1.point + offset }
          (some (rec2.set_face_normal moved_ray rec1.normal), g1)
      | (none, g1) => (none, g1)
  | .RotateY sin_theta cos_theta _ _ ptr, ray, t_min, t_max, g =>
      hit_rotate_y F sin_theta cos_theta ptr ray t_min t_max g
  | .ConstantMedium phase_function boundary neg_inv_density, ray, t_min, t_max, g =>
      hit_constant_medium F boundary phase_function neg_inv_density ray t_min t_max g
termination_by h _ _ _ _ => 2 * sizeOf h

/-- `hit_hittables` from `hittable.rs`: scan the list, shrinking the upper
bound to the `t` of the closest hit found so far and keeping its record. -/
def hit_hittables (F : RealFns) : List Hittable → Ray → TB → TB → RNG →
    Option HitRecord × RNG
  | [], _, _, _, g => (none, g)
  | h :: rest, ray, t_min, t_max, g =>
      match h.hit F ray t_min t_max g with
      | (some record, g1) =>
          match hit_hittables F rest ray t_min (.fin record.t) g1 with
          | (some record2, g2) => (some record2, g2)
          | (none, g2) => (some record, g2)
      | (none, g1) => hit_hittables F rest ray t_min t_max g1
termination_by l _ _ _ _ => 2 * sizeOf l

/-- `Hittable::bvh_node_hit` from `hittable.rs`: prune on the stored box,
test the left subtree over the full range, then the right subtree with the
upper bound narrowed to the left hit when there is one. -/
def bvh_node_hit (F : RealFns) (left right : Hittable) (aabb : AABB) (ray : Ray)
    (t_min t_max : TB) (g : RNG) : Option HitRecord × RNG :=
  if !(aabb.hit ray t_min t_max) then (none, g)
  else
    match left.hit F ray t_min t_max g with
    | (some hit_left, g1) =>
        match right.hit F ray t_min (.fin hit_left.t) g1 with
        | (some hit_right, g2) => (some hit_right, g2)
        | (none, g2) => (some hit_left, g2)
    | (none, g1) =>
        match right.hit F ray t_min t_max g1 with
        | (some hit_right, g2) => (some hit_right, g2)
        | (none, g2) => (none, g2)
termination_by 2 * (sizeOf left + sizeOf right) + 1

/-- `Hittable::hit_rotate_y` from `hittable.rs`: rotate the ray into the
local frame, intersect the child, rotate point and normal back, and
re-orient the world normal against the rotated (local-frame) ray. -/
def hit_rotate_y (F : RealFns) (sin_theta cos_theta : ℚ) (ptr : Hittable) (ray : Ray)
    (t_min t_max : TB) (g : RNG) : Option HitRecord × RNG :=
  let origin : Vector3 :=
    ⟨cos_theta * ray.origin.x - sin_theta * ray.origin.z, ray.origin.y,
     sin_theta * ray.origin.x + cos_theta * ray.origin.z⟩
  let direction : Vector3 :=
    ⟨cos_theta * ray.direction.x - sin_theta * ray.direction.z, ray.direction.y,
     sin_theta * ray.direction.x + cos_theta * ray.direction.z⟩
  let rotated_ray := Ray.with_time origin direction ray.time
  match ptr.hit F rotated_ray t_min t_max g with
  | (some rec1, g1) =>
      let p : Vector3 :=
        ⟨cos_theta * rec1.point.x + sin_theta * rec1.point.z, rec1.point.y,
         -sin_theta * rec1.point.x + cos_theta * rec1.point.z⟩
      let normal : Vector3 :=
        ⟨cos_theta * rec1.normal.x + sin_theta * rec1.normal.z, rec1.normal.y,
         -sin_theta * rec1.normal.x + cos_theta * rec1.normal.z⟩
      let rec2 := { rec1 with point := p }
      (some (rec2.set_face_normal rotated_ray normal), g1)
  | (none, g1) => (none, g1)
termination_by 2 * sizeOf ptr + 1

/-- `Hittable::hit_constant_medium` from `hittable.rs`.  The two boundary
queries use genuinely infinite bounds.  A `+∞` lower clamp or `-∞` upper
clamp makes the source's clamped interval empty (the `rec1.t >= rec2.t`
check fires before any draw), so those cases return `none` directly. -/
def hit_constant_medium (F : RealFns) (boundary : Hittable)
    (phase_function : MaterialHandle) (neg_inv_density : ℚ) (ray : Ray)
    (t_min t_max : TB) (g : RNG) : Option HitRecord × RNG :=
  match boundary.hit F ray .ninf .pinf g with
  | (none, g1) => (none, g1)
  | (some rec1, g1) =>
    match boundary.hit F ray (.fin (rec1.t + 0.0001)) .pinf g1 with
    | (none, g2) => (none, g2)
    | (some rec2, g2) =>
      if t_min = .pinf ∨ t_max = .ninf then (none, g2)
      else
        let r1a := match t_min with
          | .fin q => if rec1.t < q then q else rec1.t
          | _ => rec1.t
        let r2a := match t_max with
          | .fin q => if rec2.t > q then q else rec2.t
          | _ => rec2.t
        if r1a ≥ r2a then (none, g2)
        else
          let r1b := if r1a < 0 then 0 else r1a
          let ray_length := F.sqrtQ ray.direction.length_squared
          let distance_inside_boundary := (r2a - r1b) * ray_length
          let (udraw, g3) := random_double g2
          let hit_distance := neg_inv_density * F.lnQ udraw
          if hit_distance > distance_inside_boundary then (none, g3)
          else
            let t := r1b + hit_distance / ray_length
            (some { HitRecord.new with
                t := t, point := ray.at t, normal := ⟨1, 0, 0⟩, front_face := true,
                mat_handle := phase_function }, g3)
termination_by 2 * sizeOf boundary + 1

end

/-- Total comparison on rationals, the behavior of `partial_cmp` on
non-NaN `f64` values. -/
def ordCompare (a b : ℚ) : Ordering :=
  if a < b then .lt else if b < a then .gt else .eq

/-- Modelled from the spec: the axis comparators of `aabb.rs` order two
primitives by the minimum corner of their own bounding box along the given
axis (queried at times `(0,0)`), substituting a degenerate zero box for a
primitive without one. -/
def boxMinAxis (h : Hittable) (axis : ℕ) : ℚ :=
  let b := (h.bounding_box 0 0).getD (AABB.new ⟨0, 0, 0⟩ ⟨0, 0, 0⟩)
  if axis = 0 then b.minimum.x else if axis = 1 then b.minimum.y else b.minimum.z

/-- Modelled from the spec: `AABB::box_x_compare`. -/
def box_x_compare (a b : Hittable) : Ordering := ordCompare (boxMinAxis a 0) (boxMinAxis b 0)

/-- Modelled from the spec: `AABB::box_y_compare`. -/
def box_y_compare (a b : Hittable) : Ordering := ordCompare (boxMinAxis a 1) (boxMinAxis b 1)

/-- Modelled from the spec: `AABB::box_z_compare`. -/
def box_z_compare (a b : Hittable) : Ordering := ordCompare (boxMinAxis a 2) (boxMinAxis b 2)

/-- The node assembly at the end of `Hittable::new_bvh_node`: the node box
is the union of the children's boxes, or (after reporting) a degenerate
zero box when either child has none. -/
def mkBvhNode (left right : Hittable) (time_0 time_1 : ℚ) : Hittable :=
  Hittable.BvhNode left right
    (match left.bounding_box time_0 time_1, right.bounding_box time_0 time_1 with
     | some box_left, some box_right => AABB.surrounding_box box_left box_right
     | _, _ => AABB.new ⟨0, 0, 0⟩ ⟨0, 0, 0⟩)

/-- `Hittable::new_bvh_node` from `hittable.rs`, rendered functionally on
the sub-range it works on (the source passes the whole array plus
`start`/`end` indices and sorts the sub-range in place; recursing on the
two halves of the sorted sub-list is the same computation).  One draw
picks the axis; a single primitive is duplicated into both children; two
are ordered by the comparator; otherwise the sub-list is sorted (Rust's
stable `sort_by`, `Ordering::Greater` meaning strictly out of order) and
split at the midpoint.  The source recurses forever on an empty range, so
the `[]` case (unreachable for the nonempty lists considered here)
returns a degenerate leaf. -/
def new_bvh_node (l : List Hittable) (time_0 time_1 : ℚ) (g : RNG) : Hittable × RNG :=
  let ag := random_int_range 0 2 g
  let axis := ag.1
  let g1 := ag.2
  let comparator :=
    if axis = 0 then box_x_compare else if axis = 1 then box_y_compare else box_z_compare
  match l with
  | [] => (Hittable.Sphere 0 ⟨0, 0, 0⟩ 0, g1)
  | [x] => (mkBvhNode x x time_0 time_1, g1)
  | [a, b] =>
      if comparator a b = Ordering.lt then (mkBvhNode a b time_0 time_1, g1)
      else (mkBvhNode b a time_0 time_1, g1)
  | a :: b :: c :: rest =>
      let s := (a :: b :: c :: rest).mergeSort (fun u v => !(comparator u v = Ordering.gt))
      let mid := (a :: b :: c :: rest).length / 2
      let lp := new_bvh_node (s.take mid) time_0 time_1 g1
      let rp := new_bvh_node (s.drop mid) time_0 time_1 lp.2
      (mkBvhNode lp.1 rp.1 time_0 time_1, rp.2)
termination_by l.length
decreasing_by
  all_goals simp [List.length_take, List.length_drop, List.length_mergeSort]
  all_goals omega

/-- `Hittable::new_box` from `hittable.rs`: six axis-aligned rectangles. -/
def new_box (min max : Vector3) (mat_handle : MaterialHandle) : Hittable :=
  Hittable.Box mat_handle min max
    [Hittable.XYRect mat_handle min.x max.x min.y max.y max.z,
     Hittable.XYRect mat_handle min.x max.x min.y max.y min.z,
     Hittable.XZRect mat_handle min.x max.x min.z max.z max.y,
     Hittable.XZRect mat_handle min.x max.x min.z max.z min.y,
     Hittable.YZRect mat_handle min.y max.y min.z max.z max.x,
     Hittable.YZRect mat_handle min.y max.y min.z max.z min.x]

/-- The eight rotated corner images computed by the triple loop of
`new_rotate_y` (indices `i`, `j`, `k` ranging over `{0,1}`). -/
def cornerTesters (sin_theta cos_theta : ℚ) (aabb : AABB) : List Vector3 :=
  (List.range 2).flatMap (fun i =>
    (List.range 2).flatMap (fun j =>
      (List.range 2).map (fun k =>
        let iq : ℚ := i
        let jq : ℚ := j
        let kq : ℚ := k
        let x := iq * aabb.maximum.x + (1 - iq) * aabb.minimum.x
        let y := jq * aabb.maximum.y + (1 - jq) * aabb.minimum.y
        let z := kq * aabb.maximum.z + (1 - kq) * aabb.minimum.z
        ⟨cos_theta * x + sin_theta * z, y, -sin_theta * x + cos_theta * z⟩)))


/-- Minimum of a list of rationals (the source folds `f64::min` starting
from `+∞` over the eight corner images; with the eight values present that
is their minimum). -/
def listMin : List ℚ → ℚ
  | [] => 0
  | x :: xs => xs.foldl min x

/-- Maximum of a list of rationals (source folds from `-∞`; see
`listMin`). -/
def listMax : List ℚ → ℚ
  | [] => 0
  | x :: xs => xs.foldl max x

/-- The rotated world-space box computed by `new_rotate_y`'s corner loop
(componentwise min/max over the eight corner images). -/
def rotatedCornerBox (sin_theta cos_theta : ℚ) (aabb : AABB) : AABB :=
  let testers := cornerTesters sin_theta cos_theta aabb
  AABB.new
    ⟨listMin (testers.map (·.x)), listMin (testers.map (·.y)), listMin (testers.map (·.z))⟩
    ⟨listMax (testers.map (·.x)), listMax (testers.map (·.y)), listMax (testers.map (·.z))⟩

/-- `Hittable::new_rotate_y` from `hittable.rs`: precompute the trig
values and the rotated world-space box of the child's box at times
`(0.0, 1.0)` (a degenerate zero box when the child has none). -/
def new_rotate_y (F : RealFns) (angle : ℚ) (hittable : Hittable) : Hittable :=
  let radians := degrees_to_radians angle
  let sin_theta := F.sinQ radians
  let cos_theta := F.cosQ radians
  let hb := hittable.bounding_box 0 1
  let has_box := hb.isSome
  let aabb := hb.getD (AABB.new ⟨0, 0, 0⟩ ⟨0, 0, 0⟩)
  Hittable.RotateY sin_theta cos_theta has_box (rotatedCornerBox sin_theta cos_theta aabb)
    hittable

/-- `Hittable::new_constant_medium` from `hittable.rs`. -/
def new_constant_medium (hittable : Hittable) (d : ℚ) (mat_handle : MaterialHandle) :
    Hittable :=
  Hittable.ConstantMedium mat_handle hittable (-1 / d)

/-- An IEEE-style `f64` value for the special-value analysis: NaN, a
signed infinity, or a finite value (exact; a single unsigned zero).  Used
to settle the claims that are explicitly about `±∞`/NaN propagation in
the rectangle intersections. -/
inductive FP where
  | nan : FP
  | inf (pos : Bool) : FP
  | fin (q : ℚ) : FP
deriving DecidableEq, Repr

namespace FP

/-- IEEE negation. -/
def neg : FP → FP
  | .nan => .nan
  | .inf p => .inf (!p)
  | .fin q => .fin (-q)

/-- IEEE addition (finite arithmetic exact). -/
def add : FP → FP → FP
  | .nan, _ => .nan
  | _, .nan => .nan
  | .inf p, .inf q => if p = q then .inf p else .nan
  | .inf p, .fin _ => .inf p
  | .fin _, .inf p => .inf p
  | .fin a, .fin b => .fin (a + b)

/-- IEEE subtraction. -/
def sub (a b : FP) : FP := add a (neg b)

/-- IEEE multiplication (finite arithmetic exact). -/
def mul : FP → FP → FP
  | .nan, _ => .nan
  | _, .nan => .nan
  | .inf p, .inf q => .inf (p = q)
  | .inf p, .fin q => if q = 0 then .nan else .inf (p = decide (0 < q))
  | .fin q, .inf p => if q = 0 then .nan else .inf (p = decide (0 < q))
  | .fin a, .fin b => .fin (a * b)

/-- IEEE division (finite arithmetic exact; the single zero is treated as
`+0`, so `x/0 = ±∞` by the sign of `x` and `0/0 = NaN`). -/
def div : FP → FP → FP
  | .nan, _ => .nan
  | _, .nan => .nan
  | .inf _, .inf _ => .nan
  | .fin _, .inf _ => .fin 0
  | .inf p, .fin b => if b = 0 then .inf p else .inf (p = decide (0 < b))
  | .fin a, .fin b =>
      if b = 0 then (if a = 0 then .nan else .inf (decide (0 < a)))
      else .fin (a / b)

/-- IEEE strict less-than: false whenever either side is NaN. -/
def ltF : FP → FP → Bool
  | .nan, _ => false
  | _, .nan => false
  | .inf p, .inf q => !p && q
  | .inf p, .fin _ => !p
  | .fin _, .inf p => p
  | .fin a, .fin b => a < b

/-- A 3-vector of IEEE-style values (hit points computed in the special-
value regime). -/
structure Vec3 where
  x : FP
  y : FP
  z : FP
deriving DecidableEq, Repr

/-- The hit record produced by the special-value model of the rectangle
intersections: the geometric fields may be special values, while the
normal and face flag come from exact axis vectors. -/
structure Rec where
  point : Vec3
  normal : Vector3
  t : FP
  front_face : Bool
  mat_handle : MaterialHandle
  u : FP
  v : FP
deriving DecidableEq, Repr

/-- `Hittable::xy_rect_hit` with `f64` arithmetic modelled by `FP`
(parameters and the ray stay exact; every computation the source performs
on them follows the IEEE special-value rules). -/
def xy_rect_hit (x0 x1 y0 y1 k : ℚ) (ray : Ray) (t_min t_max : FP)
    (mat_handle : MaterialHandle) : Option Rec :=
  let t := div (sub (.fin k) (.fin ray.origin.z)) (.fin ray.direction.z)
  if ltF t t_min || ltF t_max t then none
  else
    let x := add (.fin ray.origin.x) (mul t (.fin ray.direction.x))
    let y := add (.fin ray.origin.y) (mul t (.fin ray.direction.y))
    if ltF x (.fin x0) || ltF (.fin x1) x || ltF y (.fin y0) || ltF (.fin y1) y then none
    else
      let ff := Vector3.dot ray.direction ⟨0, 0, 1⟩ < 0
      some { point := ⟨x, y, add (.fin ray.origin.z) (mul t (.fin ray.direction.z))⟩,
             normal := if ff then ⟨0, 0, 1⟩ else ⟨0, 0, -1⟩,
             t := t, front_face := ff, mat_handle := mat_handle,
             u := div (sub x (.fin x0)) (sub (.fin x1) (.fin x0)),
             v := div (sub y (.fin y0)) (sub (.fin y1) (.fin y0)) }

/-- `Hittable::xz_rect_hit` in the `FP` model. -/
def xz_rect_hit (x0 x1 z0 z1 k : ℚ) (ray : Ray) (t_min t_max : FP)
    (mat_handle : MaterialHandle) : Option Rec :=
  let t := div (sub (.fin k) (.fin ray.origin.y)) (.fin ray.direction.y)
  if ltF t t_min || ltF t_max t then none
  else
    let x := add (.fin ray.origin.x) (mul t (.fin ray.direction.x))
    let z := add (.fin ray.origin.z) (mul t (.fin ray.direction.z))
    if ltF x (.fin x0) || ltF (.fin x1) x || ltF z (.fin z0) || ltF (.fin z1) z then none
    else
      let ff := Vector3.dot ray.direction ⟨0, 1, 0⟩ < 0
      some { point := ⟨x, add (.fin ray.origin.y) (mul t (.fin ray.direction.y)), z⟩,
             normal := if ff then ⟨0, 1, 0⟩ else ⟨0, -1, 0⟩,
             t := t, front_face := ff, mat_handle := mat_handle,
             u := div (sub x (.fin x0)) (sub (.fin x1) (.fin x0)),
             v := div (sub z (.fin z0)) (sub (.fin z1) (.fin z0)) }

/-- `Hittable::yz_rect_hit` in the `FP` model. -/
def yz_rect_hit (y0 y1 z0 z1 k : ℚ) (ray : Ray) (t_min t_max : FP)
    (mat_handle : MaterialHandle) : Option Rec :=
  let t := div (sub (.fin k) (.fin ray.origin.x)) (.fin ray.direction.x)
  if ltF t t_min || ltF t_max t then none
  else
    let y := add (.fin ray.origin.y) (mul t (.fin ray.direction.y))
    let z := add (.fin ray.origin.z) (mul t (.fin ray.direction.z))
    if ltF y (.fin y0) || ltF (.fin y1) y || ltF z (.fin z0) || ltF (.fin z1) z then none
    else
      let ff := Vector3.dot ray.direction ⟨1, 0, 0⟩ < 0
      some { point := ⟨add (.fin ray.origin.x) (mul t (.fin ray.direction.x)), y, z⟩,
             normal := if ff then ⟨1, 0, 0⟩ else ⟨-1, 0, 0⟩,
             t := t, front_face := ff, mat_handle := mat_handle,
             u := div (sub y (.fin y0)) (sub (.fin y1) (.fin y0)),
             v := div (sub z (.fin z0)) (sub (.fin z1) (.fin z0)) }

end FP

/-! Auxiliary notions used to state and prove properties of the code. -/

/-- The parametric distance of a hit result, the part of the record both
traversal orders must agree on. -/
def hitT (F : RealFns) (h : Hittable) (ray : Ray) (t_min t_max : TB) (g : RNG) : Option ℚ :=
  ((h.hit F ray t_min t_max g).1).map (·.t)

/-- The parametric distance of a list scan's result. -/
def scanT (F : RealFns) (l : List Hittable) (ray : Ray) (t_min t_max : TB) (g : RNG) :
    Option ℚ :=
  ((hit_hittables F l ray t_min t_max g).1).map (·.t)

mutual

/-- `true` when the primitive tree contains no `ConstantMedium`: its `hit`
is then deterministic (no random draw). -/
def noMedium : Hittable → Bool
  | .Sphere _ _ _ => true
  | .MovingSphere _ _ _ _ _ _ => true
  | .BvhNode left right _ => noMedium left && noMedium right
  | .XYRect _ _ _ _ _ _ => true
  | .XZRect _ _ _ _ _ _ => true
  | .YZRect _ _ _ _ _ _ => true
  | .Box _ _ _ sides => noMediumList sides
  | .Translate _ ptr => noMedium ptr
  | .RotateY _ _ _ _ ptr => noMedium ptr
  | .ConstantMedium _ _ _ => false
termination_by h => 2 * sizeOf h

/-- List version of `noMedium`. -/
def noMediumList : List Hittable → Bool
  | [] => true
  | h :: rest => noMedium h && noMediumList rest
termination_by l => 2 * sizeOf l

end

mutual

/-- `true` when the primitive tree contains no `RotateY` and no
`ConstantMedium`: every record it can return was last oriented by
`set_face_normal` against a ray sharing the query's direction. -/
def orientable : Hittable → Bool
  | .Sphere _ _ _ => true
  | .MovingSphere _ _ _ _ _ _ => true
  | .BvhNode left right _ => orientable left && orientable right
  | .XYRect _ _ _ _ _ _ => true
  | .XZRect _ _ _ _ _ _ => true
  | .YZRect _ _ _ _ _ _ => true
  | .Box _ _ _ sides => orientableList sides
  | .Translate _ ptr => orientable ptr
  | .RotateY _ _ _ _ _ => false
  | .ConstantMedium _ _ _ => false
termination_by h => 2 * sizeOf h

/-- List version of `orientable`. -/
def orientableList : List Hittable → Bool
  | [] => true
  | h :: rest => orientable h && orientableList rest
termination_by l => 2 * sizeOf l

end

mutual

/-- `true` when every `ConstantMedium` in the tree has strictly negative
`neg_inv_density` (the value `new_constant_medium` stores for every
positive density). -/
def mediaStrict : Hittable → Bool
  | .Sphere _ _ _ => true
  | .MovingSphere _ _ _ _ _ _ => true
  | .BvhNode left right _ => mediaStrict left && mediaStrict right
  | .XYRect _ _ _ _ _ _ => true
  | .XZRect _ _ _ _ _ _ => true
  | .YZRect _ _ _ _ _ _ => true
  | .Box _ _ _ sides => mediaStrictList sides
  | .Translate _ ptr => mediaStrict ptr
  | .RotateY _ _ _ _ ptr => mediaStrict ptr
  | .ConstantMedium _ boundary neg_inv_density =>
      decide (neg_inv_density < 0) && mediaStrict boundary
termination_by h => 2 * sizeOf h

/-- List version of `mediaStrict`. -/
def mediaStrictList : List Hittable → Bool
  | [] => true
  | h :: rest => mediaStrict h && mediaStrictList rest
termination_by l => 2 * sizeOf l

end

/-- A primitive is ranged when every hit it reports lies inside the query
interval. -/
def RangedT (F : RealFns) (h : Hittable) : Prop :=
  ∀ ray a b g q, hitT F h ray a b g = some q →
    TB.leB a (.fin q) = true ∧ TB.leB (.fin q) b = true

/-- A primitive is narrowing-stable when shrinking the upper bound keeps
exactly the hits at or below the new bound (at the level of parametric
distances). -/
def NarrowT (F : RealFns) (h : Hittable) : Prop :=
  ∀ ray a b b' g, TB.leB b' b = true →
    hitT F h ray a b' g = (hitT F h ray a b g).filter (fun q => TB.leB (.fin q) b')

/-- Componentwise box inclusion. -/
def boxLE (a b : AABB) : Prop :=
  b.minimum.x ≤ a.minimum.x ∧ b.minimum.y ≤ a.minimum.y ∧ b.minimum.z ≤ a.minimum.z ∧
  a.maximum.x ≤ b.maximum.x ∧ a.maximum.y ≤ b.maximum.y ∧ a.maximum.z ≤ b.maximum.z

/-- A primitive is slab-sound along a ray (for a fixed lower bound and box
times) when any hit it reports makes the slab test of its own bounding box
pass over the same query range. -/
def SlabOK (F : RealFns) (h : Hittable) (ray : Ray) (a : TB) (t0 t1 : ℚ) : Prop :=
  ∃ bb, h.bounding_box t0 t1 = some bb ∧
    ∀ b g q, hitT F h ray a b g = some q → bb.hit ray a b = true

/-- Combine two optional parametric distances, keeping the smaller: the
value both traversals of a two-element collection must produce. -/
def ominQ : Option ℚ → Option ℚ → Option ℚ
  | none, o => o
  | some q, none => some q
  | some q, some r => some (min q r)

/-- The smallest parametric distance any member of the list reports over
the given query range (each member queried over the full range). -/
def bestT (F : RealFns) (l : List Hittable) (ray : Ray) (a b : TB) (g : RNG) : Option ℚ :=
  l.foldr (fun h acc => ominQ (hitT F h ray a b g) acc) none

/-- A constant random stream, used to instantiate concrete scenarios. -/
def constRNG (q : ℚ) : RNG := fun _ => q

/-- Relation between the running slab states of a smaller and a larger box:
if the smaller box's state is still alive, so is the larger box's, with a
wider interval. -/
def slabRel : Option (TB × TB) → Option (TB × TB) → Prop
  | none, _ => True
  | some _, none => False
  | some (lo, hi), some (lo', hi') => TB.leB lo' lo = true ∧ TB.leB hi hi' = true

/-! Small evaluation lemmas for the vector instances. -/

@[simp] theorem Vector3.add_def (u v : Vector3) :
    u + v = ⟨u.x + v.x, u.y + v.y, u.z + v.z⟩ := rfl

@[simp] theorem Vector3.sub_def (u v : Vector3) :
    u - v = ⟨u.x - v.x, u.y - v.y, u.z - v.z⟩ := rfl

@[simp] theorem Vector3.neg_def (v : Vector3) : -v = ⟨-v.x, -v.y, -v.z⟩ := rfl

@[simp] theorem Vector3.smul_def (q : ℚ) (v : Vector3) :
    q • v = ⟨q * v.x, q * v.y, q * v.z⟩ := rfl

/-! Order facts about query bounds. -/

theorem TB.leB_iff_fin (q r : ℚ) : TB.leB (.fin q) (.fin r) = true ↔ q ≤ r := by
  simp [TB.leB, TB.ltB, not_lt]

theorem TB.ltB_iff_fin (q r : ℚ) : TB.ltB (.fin q) (.fin r) = true ↔ q < r := by
  simp [TB.ltB]

theorem TB.leB_ninf (a : TB) : TB.leB .ninf a = true := by
  cases a <;> simp [TB.leB, TB.ltB]

theorem TB.leB_pinf (a : TB) : TB.leB a .pinf = true := by
  cases a <;> simp [TB.leB, TB.ltB]

theorem TB.leB_refl (a : TB) : TB.leB a a = true := by
  cases a <;> simp [TB.leB, TB.ltB]

theorem TB.leB_trans {a b c : TB} (h1 : TB.leB a b = true) (h2 : TB.leB b c = true) :
    TB.leB a c = true := by
  cases a <;> cases b <;> cases c <;> simp_all [TB.leB, TB.ltB, not_lt] <;> linarith

theorem TB.ltB_of_ltB_of_leB {a b c : TB} (h1 : TB.ltB a b = true) (h2 : TB.leB b c = true) :
    TB.ltB a c = true := by
  cases a <;> cases b <;> cases c <;> simp_all [TB.leB, TB.ltB, not_lt] <;> linarith

theorem TB.not_ltB_of_leB {a b : TB} (h : TB.leB a b = true) : TB.ltB b a = false := by
  cases a <;> cases b <;> simp_all [TB.leB, TB.ltB]

/-! Determinism: a medium-free tree neither consumes nor depends on the
random stream. -/

mutual

theorem hit_pure (F : RealFns) (h : Hittable) (hm : noMedium h = true) (ray : Ray)
    (a b : TB) (g g' : RNG) :
    h.hit F ray a b g = ((h.hit F ray a b g').1, g) := by
  cases h with
  | Sphere m c r => simp [Hittable.hit]
  | MovingSphere m c0 c1 t0 t1 r => simp [Hittable.hit]
  | XYRect m x0 x1 y0 y1 k => simp [Hittable.hit]
  | XZRect m x0 x1 z0 z1 k => simp [Hittable.hit]
  | YZRect m y0 y1 z0 z1 k => simp [Hittable.hit]
  | BvhNode L R bb =>
      simp only [noMedium, Bool.and_eq_true] at hm
      simp only [Hittable.hit, bvh_node_hit]
      split
      · rfl
      · rw [hit_pure F L hm.1 ray a b g g']
        rcases hLg' : L.hit F ray a b g' with ⟨oL', gL'⟩
        cases oL' with
        | some rec1 =>
            dsimp only
            rw [hit_pure F R hm.2 ray a (.fin rec1.t) g g',
              hit_pure F R hm.2 ray a (.fin rec1.t) gL' g']
            rcases hRg' : R.hit F ray a (.fin rec1.t) g' with ⟨oR', gR'⟩
            cases oR' <;> rfl
        | none =>
            dsimp only
            rw [hit_pure F R hm.2 ray a b g g', hit_pure F R hm.2 ray a b gL' g']
            rcases hRg' : R.hit F ray a b g' with ⟨oR', gR'⟩
            cases oR' <;> rfl
  | Box m mn mx sides =>
      simp only [noMedium] at hm
      simp only [Hittable.hit]
      exact hit_hittables_pure F sides hm ray a b g g'
  | Translate off ptr =>
      simp only [noMedium] at hm
      simp only [Hittable.hit]
      rw [hit_pure F ptr hm (Ray.with_time (ray.origin - off) ray.direction ray.time)
        a b g g']
      rcases hPg' : ptr.hit F (Ray.with_time (ray.origin - off) ray.direction ray.time)
          a b g' with ⟨oP', gP'⟩
      cases oP' <;> rfl
  | RotateY s c hb bb ptr =>
      simp only [noMedium] at hm
      simp only [Hittable.hit, hit_rotate_y]
      rw [hit_pure F ptr hm _ a b g g']
      rcases hPg' : ptr.hit F (Ray.with_time
          ⟨c * ray.origin.x - s * ray.origin.z, ray.origin.y,
           s * ray.origin.x + c * ray.origin.z⟩
          ⟨c * ray.direction.x - s * ray.direction.z, ray.direction.y,
           s * ray.direction.x + c * ray.direction.z⟩ ray.time) a b g' with ⟨oP', gP'⟩
      cases oP' <;> rfl
  | ConstantMedium pf bnd nid => simp [noMedium] at hm
termination_by 2 * sizeOf h + 1
decreasing_by
  all_goals subst_vars
  all_goals simp_wf
  all_goals try omega

theorem hit_hittables_pure (F : RealFns) (l : List Hittable) (hm : noMediumList l = true)
    (ray : Ray) (a b : TB) (g g' : RNG) :
    hit_hittables F l ray a b g = ((hit_hittables F l ray a b g').1, g) := by
  cases l with
  | nil => simp [hit_hittables]
  | cons h rest =>
      simp only [noMediumList, Bool.and_eq_true] at hm
      simp only [hit_hittables]
      rw [hit_pure F h hm.1 ray a b g g']
      rcases hHg' : h.hit F ray a b g' with ⟨oH', gH'⟩
      cases oH' with
      | some rec1 =>
          dsimp only
          rw [hit_hittables_pure F rest hm.2 ray a (.fin rec1.t) g g',
            hit_hittables_pure F rest hm.2 ray a (.fin rec1.t) gH' g']
          rcases hRg' : (hit_hittables F rest ray a (.fin rec1.t) g').1 with _ | r2 <;> rfl
      | none =>
          dsimp only
          rw [hit_hittables_pure F rest hm.2 ray a b g g',
            hit_hittables_pure F rest hm.2 ray a b gH' g']
termination_by 2 * sizeOf l + 1
decreasing_by
  all_goals subst_vars
  all_goals simp_wf
  all_goals try omega

end

/-! Record bookkeeping. -/

theorem set_face_normal_fields (rec : HitRecord) (ray : Ray) (n : Vector3) :
    (rec.set_face_normal ray n).t = rec.t ∧
    (rec.set_face_normal ray n).u = rec.u ∧
    (rec.set_face_normal ray n).v = rec.v ∧
    (rec.set_face_normal ray n).point = rec.point ∧
    (rec.set_face_normal ray n).mat_handle = rec.mat_handle := by
  unfold HitRecord.set_face_normal; split <;> exact ⟨rfl, rfl, rfl, rfl, rfl⟩

/-! Generic facts about the two guard shapes the leaf intersections use:
a single candidate distance behind a range-and-extent guard (rectangles)
and two candidate roots tried in order (spheres). -/

theorem guard1_ranged {t q : ℚ} {a b : TB} {P : Prop} [Decidable P]
    (h : (if TB.ltB (.fin t) a = true ∨ TB.ltB b (.fin t) = true ∨ P then none
          else some t) = some q) :
    q = t ∧ TB.leB a (.fin q) = true ∧ TB.leB (.fin q) b = true := by
  split at h
  · exact absurd h (by simp)
  · next hg =>
      push_neg at hg
      injection h with h
      subst h
      refine ⟨rfl, ?_, ?_⟩
      · simp [TB.leB, hg.1]
      · simp [TB.leB, hg.2.1]

theorem leB_total {x y : TB} (h : ¬ TB.leB x y = true) : TB.ltB y x = true := by
  cases x <;> cases y <;> simp_all [TB.leB, TB.ltB, not_le]

theorem ltB_of_leB_of_ltB {x y : TB} {t : ℚ} (h1 : TB.leB x y = true)
    (h2 : TB.ltB y (.fin t) = true) : TB.ltB x (.fin t) = true := by
  cases x <;> cases y <;> simp_all [TB.leB, TB.ltB, not_lt] <;> linarith

theorem guard1_narrow (t : ℚ) (a b b' : TB) (P : Prop) [Decidable P]
    (hb : TB.leB b' b = true) :
    (if TB.ltB (.fin t) a = true ∨ TB.ltB b' (.fin t) = true ∨ P then none else some t)
      = (if TB.ltB (.fin t) a = true ∨ TB.ltB b (.fin t) = true ∨ P then none
         else some t).filter (fun q => TB.leB (.fin q) b') := by
  by_cases h1 : TB.ltB (.fin t) a = true
  · simp [h1]
  · by_cases hP : P
    · simp [h1, hP]
    · by_cases h2 : TB.ltB b (.fin t) = true
      · have h2' := ltB_of_leB_of_ltB hb h2
        simp [h1, h2, h2', hP]
      · by_cases h3 : TB.ltB b' (.fin t) = true
        · simp [h1, h2, h3, hP, Option.filter, TB.leB]
        · simp [h1, h2, h3, hP, Option.filter, TB.leB]

theorem guard2_ranged {root1 root2 q : ℚ} {a b : TB}
    (h : (if ¬(TB.ltB (.fin root1) a = true ∨ TB.ltB b (.fin root1) = true) then some root1
          else if ¬(TB.ltB (.fin root2) a = true ∨ TB.ltB b (.fin root2) = true)
          then some root2 else none) = some q) :
    TB.leB a (.fin q) = true ∧ TB.leB (.fin q) b = true ∧ (q = root1 ∨ q = root2) := by
  split at h
  · next hg =>
      push_neg at hg
      injection h with h; subst h
      exact ⟨by simp [TB.leB, hg.1], by simp [TB.leB, hg.2], Or.inl rfl⟩
  · split at h
    · next hg =>
        push_neg at hg
        injection h with h; subst h
        exact ⟨by simp [TB.leB, hg.1], by simp [TB.leB, hg.2], Or.inr rfl⟩
    · exact absurd h (by simp)

theorem guard2_narrow (root1 root2 : ℚ) (h12 : root1 ≤ root2) (a b b' : TB)
    (hb : TB.leB b' b = true) :
    (if ¬(TB.ltB (.fin root1) a = true ∨ TB.ltB b' (.fin root1) = true) then some root1
     else if ¬(TB.ltB (.fin root2) a = true ∨ TB.ltB b' (.fin root2) = true)
     then some root2 else none)
      = (if ¬(TB.ltB (.fin root1) a = true ∨ TB.ltB b (.fin root1) = true) then some root1
         else if ¬(TB.ltB (.fin root2) a = true ∨ TB.ltB b (.fin root2) = true)
         then some root2 else none).filter (fun q => TB.leB (.fin q) b') := by
  have h12' : TB.leB (.fin root1) (.fin root2) = true := (TB.leB_iff_fin _ _).mpr h12
  by_cases hA1 : TB.ltB (.fin root1) a = true
  · by_cases hA2 : TB.ltB (.fin root2) a = true
    · simp [hA1, hA2, Option.filter]
    · by_cases hB2 : TB.ltB b (.fin root2) = true
      · have hB2' := ltB_of_leB_of_ltB hb hB2
        simp [hA1, hA2, hB2, hB2', Option.filter]
      · by_cases hB2' : TB.ltB b' (.fin root2) = true
        · simp [hA1, hA2, hB2, hB2', Option.filter, TB.leB]
        · simp [hA1, hA2, hB2, hB2', Option.filter, TB.leB]
  · by_cases hB1 : TB.ltB b (.fin root1) = true
    · have hB2 : TB.ltB b (.fin root2) = true := TB.ltB_of_ltB_of_leB hB1 h12'
      have hB1' : TB.ltB b' (.fin root1) = true := ltB_of_leB_of_ltB hb hB1
      have hB2' : TB.ltB b' (.fin root2) = true := ltB_of_leB_of_ltB hb hB2
      simp [hA1, hB1, hB1', hB2, hB2', Option.filter]
    · by_cases hB1' : TB.ltB b' (.fin root1) = true
      · have hB2' : TB.ltB b' (.fin root2) = true := TB.ltB_of_ltB_of_leB hB1' h12'
        simp [hA1, hB1, hB1', hB2', Option.filter, TB.leB]
      · simp [hA1, hB1, hB1', Option.filter, TB.leB]

/-! Characterizations of the leaf intersections at the level of the
reported parametric distance. -/

theorem xy_rect_hitT_eq (F : RealFns) (m : MaterialHandle) (x0 x1 y0 y1 k : ℚ)
    (ray : Ray) (a b : TB) (g : RNG) :
    hitT F (.XYRect m x0 x1 y0 y1 k) ray a b g =
      (if TB.ltB (.fin ((k - ray.origin.z) / ray.direction.z)) a = true ∨
          TB.ltB b (.fin ((k - ray.origin.z) / ray.direction.z)) = true ∨
          (ray.origin.x + ((k - ray.origin.z) / ray.direction.z) * ray.direction.x < x0 ∨
           ray.origin.x + ((k - ray.origin.z) / ray.direction.z) * ray.direction.x > x1 ∨
           ray.origin.y + ((k - ray.origin.z) / ray.direction.z) * ray.direction.y < y0 ∨
           ray.origin.y + ((k - ray.origin.z) / ray.direction.z) * ray.direction.y > y1)
       then none
       else some ((k - ray.origin.z) / ray.direction.z)) := by
  simp only [hitT, Hittable.hit, xy_rect_hit]
  split
  · next hg => rw [if_pos (by tauto)]; rfl
  · next hg =>
      split
      · next he => rw [if_pos (by tauto)]; rfl
      · next he =>
          rw [if_neg (by tauto)]
          simp [HitRecord.set_face_normal]
          split <;> rfl

theorem xz_rect_hitT_eq (F : RealFns) (m : MaterialHandle) (x0 x1 z0 z1 k : ℚ)
    (ray : Ray) (a b : TB) (g : RNG) :
    hitT F (.XZRect m x0 x1 z0 z1 k) ray a b g =
      (if TB.ltB (.fin ((k - ray.origin.y) / ray.direction.y)) a = true ∨
          TB.ltB b (.fin ((k - ray.origin.y) / ray.direction.y)) = true ∨
          (ray.origin.x + ((k - ray.origin.y) / ray.direction.y) * ray.direction.x < x0 ∨
           ray.origin.x + ((k - ray.origin.y) / ray.direction.y) * ray.direction.x > x1 ∨
           ray.origin.z + ((k - ray.origin.y) / ray.direction.y) * ray.direction.z < z0 ∨
           ray.origin.z + ((k - ray.origin.y) / ray.direction.y) * ray.direction.z > z1)
       then none
       else some ((k - ray.origin.y) / ray.direction.y)) := by
  simp only [hitT, Hittable.hit, xz_rect_hit]
  split
  · next hg => rw [if_pos (by tauto)]; rfl
  · next hg =>
      split
      · next he => rw [if_pos (by tauto)]; rfl
      · next he =>
          rw [if_neg (by tauto)]
          simp [HitRecord.set_face_normal]
          split <;> rfl

theorem yz_rect_hitT_eq (F : RealFns) (m : MaterialHandle) (y0 y1 z0 z1 k : ℚ)
    (ray : Ray) (a b : TB) (g : RNG) :
    hitT F (.YZRect m y0 y1 z0 z1 k) ray a b g =
      (if TB.ltB (.fin ((k - ray.origin.x) / ray.direction.x)) a = true ∨
          TB.ltB b (.fin ((k - ray.origin.x) / ray.direction.x)) = true ∨
          (ray.origin.y + ((k - ray.origin.x) / ray.direction.x) * ray.direction.y < y0 ∨
           ray.origin.y + ((k - ray.origin.x) / ray.direction.x) * ray.direction.y > y1 ∨
           ray.origin.z + ((k - ray.origin.x) / ray.direction.x) * ray.direction.z < z0 ∨
           ray.origin.z + ((k - ray.origin.x) / ray.direction.x) * ray.direction.z > z1)
       then none
       else some ((k - ray.origin.x) / ray.direction.x)) := by
  simp only [hitT, Hittable.hit, yz_rect_hit]
  split
  · next hg => rw [if_pos (by tauto)]; rfl
  · next hg =>
      split
      · next he => rw [if_pos (by tauto)]; rfl
      · next he =>
          rw [if_neg (by tauto)]
          simp [HitRecord.set_face_normal]
          split <;> rfl

theorem sphere_hit_t_eq (F : RealFns) (c : Vector3) (r : ℚ) (m : MaterialHandle)
    (ray : Ray) (a b : TB) :
    (sphere_hit F c r ray a b m).map (fun rec => rec.t) =
      (let hb2 := Vector3.dot (ray.origin - c) ray.direction
       let aq := ray.direction.length_squared
       let disc := hb2 * hb2 - aq * ((ray.origin - c).length_squared - r * r)
       let root1 := (-hb2 - F.sqrtQ disc) / aq
       let root2 := (-hb2 + F.sqrtQ disc) / aq
       if disc < 0 then none
       else if ¬(TB.ltB (.fin root1) a = true ∨ TB.ltB b (.fin root1) = true) then some root1
       else if ¬(TB.ltB (.fin root2) a = true ∨ TB.ltB b (.fin root2) = true) then some root2
       else none) := by
  simp only [sphere_hit]
  by_cases hd : Vector3.dot (ray.origin - c) ray.direction *
      Vector3.dot (ray.origin - c) ray.direction -
      ray.direction.length_squared * ((ray.origin - c).length_squared - r * r) < 0
  · simp only [hd, if_pos, if_true, Option.map_none']
  · rw [if_neg hd]
    simp only [hd, if_false]
    by_cases hg1 : TB.ltB (.fin ((-(Vector3.dot (ray.origin - c) ray.direction) -
        F.sqrtQ (Vector3.dot (ray.origin - c) ray.direction *
          Vector3.dot (ray.origin - c) ray.direction -
          ray.direction.length_squared * ((ray.origin - c).length_squared - r * r))) /
        ray.direction.length_squared)) a = true ∨
      TB.ltB b (.fin ((-(Vector3.dot (ray.origin - c) ray.direction) -
        F.sqrtQ (Vector3.dot (ray.origin - c) ray.direction *
          Vector3.dot (ray.origin - c) ray.direction -
          ray.direction.length_squared * ((ray.origin - c).length_squared - r * r))) /
        ray.direction.length_squared)) = true
    · rw [if_pos hg1, if_neg (not_not_intro hg1)]
      by_cases hg2 : TB.ltB (.fin ((-(Vector3.dot (ray.origin - c) ray.direction) +
          F.sqrtQ (Vector3.dot (ray.origin - c) ray.direction *
            Vector3.dot (ray.origin - c) ray.direction -
            ray.direction.length_squared * ((ray.origin - c).length_squared - r * r))) /
          ray.direction.length_squared)) a = true ∨
        TB.ltB b (.fin ((-(Vector3.dot (ray.origin - c) ray.direction) +
          F.sqrtQ (Vector3.dot (ray.origin - c) ray.direction *
            Vector3.dot (ray.origin - c) ray.direction -
            ray.direction.length_squared * ((ray.origin - c).length_squared - r * r))) /
          ray.direction.length_squared)) = true
      · rw [if_pos hg2, if_neg (not_not_intro hg2)]
        rfl
      · rw [if_neg hg2, if_pos hg2]
        simp [HitRecord.set_face_normal]
        split <;> rfl
    · rw [if_neg hg1, if_pos hg1]
      simp [HitRecord.set_face_normal]
      split <;> rfl

theorem length_squared_nonneg (v : Vector3) : 0 ≤ v.length_squared := by
  unfold Vector3.length_squared
  have hx := mul_self_nonneg v.x
  have hy := mul_self_nonneg v.y
  have hz := mul_self_nonneg v.z
  linarith

theorem sphere_roots_le (F : RealFns) (hs : ∀ q, 0 ≤ F.sqrtQ q) (hb2 aq cq : ℚ)
    (haq : 0 ≤ aq) :
    (-hb2 - F.sqrtQ (hb2 * hb2 - aq * cq)) / aq ≤
      (-hb2 + F.sqrtQ (hb2 * hb2 - aq * cq)) / aq := by
  rcases eq_or_lt_of_le haq with h | h
  · rw [← h]; simp
  · exact (div_le_div_right h).mpr (by linarith [hs (hb2 * hb2 - aq * cq)])

theorem hitT_sphere (F : RealFns) (m : MaterialHandle) (c : Vector3) (r : ℚ) (ray : Ray)
    (a b : TB) (g : RNG) :
    hitT F (.Sphere m c r) ray a b g = (sphere_hit F c r ray a b m).map (fun rec => rec.t) := by
  simp [hitT, Hittable.hit]

theorem hitT_moving_sphere (F : RealFns) (m : MaterialHandle) (c0 c1 : Vector3)
    (t0 t1 r : ℚ) (ray : Ray) (a b : TB) (g : RNG) :
    hitT F (.MovingSphere m c0 c1 t0 t1 r) ray a b g =
      (sphere_hit F (get_center_at_time c0 c1 t0 t1 ray.time) r ray a b m).map
        (fun rec => rec.t) := by
  simp [hitT, Hittable.hit]

/-! Ranged and narrowing-stable behavior of the leaf primitives. -/

theorem xy_rect_rangedT (F : RealFns) (m : MaterialHandle) (x0 x1 y0 y1 k : ℚ) :
    RangedT F (.XYRect m x0 x1 y0 y1 k) := by
  intro ray a b g q hq
  rw [xy_rect_hitT_eq] at hq
  exact ⟨(guard1_ranged hq).2.1, (guard1_ranged hq).2.2⟩

theorem xz_rect_rangedT (F : RealFns) (m : MaterialHandle) (x0 x1 z0 z1 k : ℚ) :
    RangedT F (.XZRect m x0 x1 z0 z1 k) := by
  intro ray a b g q hq
  rw [xz_rect_hitT_eq] at hq
  exact ⟨(guard1_ranged hq).2.1, (guard1_ranged hq).2.2⟩

theorem yz_rect_rangedT (F : RealFns) (m : MaterialHandle) (y0 y1 z0 z1 k : ℚ) :
    RangedT F (.YZRect m y0 y1 z0 z1 k) := by
  intro ray a b g q hq
  rw [yz_rect_hitT_eq] at hq
  exact ⟨(guard1_ranged hq).2.1, (guard1_ranged hq).2.2⟩

theorem xy_rect_narrowT (F : RealFns) (m : MaterialHandle) (x0 x1 y0 y1 k : ℚ) :
    NarrowT F (.XYRect m x0 x1 y0 y1 k) := by
  intro ray a b b' g hb
  rw [xy_rect_hitT_eq, xy_rect_hitT_eq]
  exact guard1_narrow _ _ _ _ _ hb

theorem xz_rect_narrowT (F : RealFns) (m : MaterialHandle) (x0 x1 z0 z1 k : ℚ) :
    NarrowT F (.XZRect m x0 x1 z0 z1 k) := by
  intro ray a b b' g hb
  rw [xz_rect_hitT_eq, xz_rect_hitT_eq]
  exact guard1_narrow _ _ _ _ _ hb

theorem yz_rect_narrowT (F : RealFns) (m : MaterialHandle) (y0 y1 z0 z1 k : ℚ) :
    NarrowT F (.YZRect m y0 y1 z0 z1 k) := by
  intro ray a b b' g hb
  rw [yz_rect_hitT_eq, yz_rect_hitT_eq]
  exact guard1_narrow _ _ _ _ _ hb

theorem sphere_rangedT (F : RealFns) (m : MaterialHandle) (c : Vector3) (r : ℚ) :
    RangedT F (.Sphere m c r) := by
  intro ray a b g q hq
  rw [hitT_sphere, sphere_hit_t_eq] at hq
  dsimp only at hq
  split at hq
  · exact absurd hq (by simp)
  · exact ⟨(guard2_ranged hq).1, (guard2_ranged hq).2.1⟩

theorem moving_sphere_rangedT (F : RealFns) (m : MaterialHandle) (c0 c1 : Vector3)
    (t0 t1 r : ℚ) : RangedT F (.MovingSphere m c0 c1 t0 t1 r) := by
  intro ray a b g q hq
  rw [hitT_moving_sphere, sphere_hit_t_eq] at hq
  dsimp only at hq
  split at hq
  · exact absurd hq (by simp)
  · exact ⟨(guard2_ranged hq).1, (guard2_ranged hq).2.1⟩

theorem sphere_narrowT (F : RealFns) (hs : ∀ q, 0 ≤ F.sqrtQ q) (m : MaterialHandle)
    (c : Vector3) (r : ℚ) : NarrowT F (.Sphere m c r) := by
  intro ray a b b' g hb
  rw [hitT_sphere, sphere_hit_t_eq, hitT_sphere, sphere_hit_t_eq]
  dsimp only
  split
  · simp [Option.filter]
  · exact guard2_narrow _ _
      (sphere_roots_le F hs _ _ _ (length_squared_nonneg ray.direction)) a b b' hb

theorem moving_sphere_narrowT (F : RealFns) (hs : ∀ q, 0 ≤ F.sqrtQ q) (m : MaterialHandle)
    (c0 c1 : Vector3) (t0 t1 r : ℚ) : NarrowT F (.MovingSphere m c0 c1 t0 t1 r) := by
  intro ray a b b' g hb
  rw [hitT_moving_sphere, sphere_hit_t_eq, hitT_moving_sphere, sphere_hit_t_eq]
  dsimp only
  split
  · simp [Option.filter]
  · exact guard2_narrow _ _
      (sphere_roots_le F hs _ _ _ (length_squared_nonneg ray.direction)) a b b' hb

/-! Scan characterization: the list scan computes the least reported
distance. -/

theorem scanT_nil (F : RealFns) (ray : Ray) (a b : TB) (g : RNG) :
    scanT F [] ray a b g = none := by
  simp [scanT, hit_hittables]

theorem scanT_cons (F : RealFns) (h : Hittable) (rest : List Hittable) (ray : Ray)
    (a b : TB) (g : RNG) (hm : noMedium h = true) :
    scanT F (h :: rest) ray a b g =
      (match hitT F h ray a b g with
       | some t1 =>
         (match scanT F rest ray a (.fin t1) g with
          | some t2 => some t2
          | none => some t1)
       | none => scanT F rest ray a b g) := by
  simp only [scanT, hitT, hit_hittables]
  rw [hit_pure F h hm ray a b g g]
  rcases hH : (h.hit F ray a b g).1 with _ | rec1
  · rfl
  · dsimp only
    rcases hR : (hit_hittables F rest ray a (.fin rec1.t) g).1 with _ | rec2 <;>
      rcases hRp : hit_hittables F rest ray a (.fin rec1.t) g with ⟨oR, gR⟩ <;>
      rw [hRp] at hR <;> simp_all

theorem leB_of_ltB {x y : TB} (h : TB.ltB x y = true) : TB.leB x y = true := by
  cases x <;> cases y <;> simp_all [TB.leB, TB.ltB] <;> linarith

theorem scan_ranged (F : RealFns) (ray : Ray) (a : TB) :
    ∀ (l : List Hittable), noMediumList l = true → (∀ h ∈ l, RangedT F h) →
      ∀ b g q, scanT F l ray a b g = some q →
        TB.leB a (.fin q) = true ∧ TB.leB (.fin q) b = true := by
  intro l
  induction l with
  | nil => intro _ _ b g q hq; rw [scanT_nil] at hq; exact absurd hq (by simp)
  | cons h rest ih =>
      intro hm hr b g q hq
      simp only [noMediumList, Bool.and_eq_true] at hm
      rw [scanT_cons F h rest ray a b g hm.1] at hq
      rcases hH : hitT F h ray a b g with _ | t1 <;> rw [hH] at hq
      · exact ih hm.2 (fun x hx => hr x (List.mem_cons_of_mem _ hx)) b g q hq
      · have hhr := hr h (List.mem_cons_self _ _) ray a b g t1 hH
        dsimp only at hq
        rcases hR : scanT F rest ray a (.fin t1) g with _ | t2 <;> rw [hR] at hq
        · injection hq with hq; subst hq; exact hhr
        · injection hq with hq; subst hq
          have := ih hm.2 (fun x hx => hr x (List.mem_cons_of_mem _ hx)) (.fin t1) g t2 hR
          exact ⟨this.1, TB.leB_trans this.2 hhr.2⟩

theorem scan_narrow (F : RealFns) (ray : Ray) (a : TB) :
    ∀ (l : List Hittable), noMediumList l = true → (∀ h ∈ l, RangedT F h) →
      (∀ h ∈ l, NarrowT F h) →
      ∀ b b' g, TB.leB b' b = true →
        scanT F l ray a b' g = (scanT F l ray a b g).filter
          (fun q => TB.leB (.fin q) b') := by
  intro l
  induction l with
  | nil => intro _ _ _ b b' g _; rw [scanT_nil, scanT_nil]; rfl
  | cons h rest ih =>
      intro hm hr hn b b' g hb
      simp only [noMediumList, Bool.and_eq_true] at hm
      have hrr := fun x hx => hr x (List.mem_cons_of_mem _ hx)
      have hnn := fun x hx => hn x (List.mem_cons_of_mem _ hx)
      rw [scanT_cons F h rest ray a b g hm.1, scanT_cons F h rest ray a b' g hm.1]
      have hnh := hn h (List.mem_cons_self _ _) ray a b b' g hb
      rcases hH : hitT F h ray a b g with _ | t1 <;> rw [hH] at hnh
      · rw [hnh]
        exact ih hm.2 hrr hnn b b' g hb
      · by_cases ht1 : TB.leB (.fin t1) b' = true
        · have hsome : hitT F h ray a b' g = some t1 := by
            rw [hnh]; simp [Option.filter, ht1]
          rw [hsome]
          dsimp only
          rcases hR : scanT F rest ray a (.fin t1) g with _ | t2
          · simp [Option.filter, ht1]
          · have := scan_ranged F ray a rest hm.2 hrr (.fin t1) g t2 hR
            have ht2 : TB.leB (.fin t2) b' = true := TB.leB_trans this.2 ht1
            simp [Option.filter, ht2]
        · have hb't1 : TB.ltB b' (.fin t1) = true := leB_total ht1
          have hleb' : TB.leB b' (.fin t1) = true := leB_of_ltB hb't1
          have hnone : hitT F h ray a b' g = none := by
            rw [hnh]; simp [Option.filter, ht1]
          rw [hnone]
          rw [ih hm.2 hrr hnn (.fin t1) b' g hleb']
          dsimp only
          rcases hR : scanT F rest ray a (.fin t1) g with _ | t2
          · simp [Option.filter, ht1]
          · rfl

theorem noMediumList_iff (l : List Hittable) :
    noMediumList l = true ↔ ∀ h ∈ l, noMedium h = true := by
  induction l with
  | nil => simp [noMediumList]
  | cons h rest ih => simp [noMediumList, ih]

theorem bestT_nil (F : RealFns) (ray : Ray) (a b : TB) (g : RNG) :
    bestT F [] ray a b g = none := rfl

theorem bestT_cons (F : RealFns) (h : Hittable) (l : List Hittable) (ray : Ray)
    (a b : TB) (g : RNG) :
    bestT F (h :: l) ray a b g = ominQ (hitT F h ray a b g) (bestT F l ray a b g) := rfl

theorem ominQ_eq_none {x y : Option ℚ} : ominQ x y = none ↔ x = none ∧ y = none := by
  cases x <;> cases y <;> simp [ominQ]

theorem bestT_none_iff (F : RealFns) (l : List Hittable) (ray : Ray) (a b : TB) (g : RNG) :
    bestT F l ray a b g = none ↔ ∀ h ∈ l, hitT F h ray a b g = none := by
  induction l with
  | nil => simp [bestT_nil]
  | cons h rest ih => simp [bestT_cons, ominQ_eq_none, ih]

theorem bestT_spec (F : RealFns) (ray : Ray) (a b : TB) (g : RNG) :
    ∀ (l : List Hittable) (q : ℚ), bestT F l ray a b g = some q →
    (∃ h ∈ l, hitT F h ray a b g = some q) ∧
      ∀ h ∈ l, ∀ r, hitT F h ray a b g = some r → q ≤ r := by
  intro l
  induction l with
  | nil => intro q hq; exact absurd hq (by simp [bestT_nil])
  | cons h rest ih =>
      intro q hq
      rw [bestT_cons] at hq
      rcases hH : hitT F h ray a b g with _ | t1 <;> rw [hH] at hq
      · rcases hB : bestT F rest ray a b g with _ | t2 <;> rw [hB] at hq
        · exact absurd hq (by simp [ominQ])
        · simp only [ominQ] at hq
          injection hq with hq; subst hq
          obtain ⟨⟨x, hx, hxq⟩, hmin⟩ := ih t2 hB
          refine ⟨⟨x, List.mem_cons_of_mem _ hx, hxq⟩, ?_⟩
          intro y hy r hr
          rcases List.mem_cons.mp hy with rfl | hy'
          · rw [hH] at hr; exact absurd hr (by simp)
          · exact hmin y hy' r hr
      · rcases hB : bestT F rest ray a b g with _ | t2 <;> rw [hB] at hq <;>
          simp only [ominQ] at hq <;> injection hq with hq <;> subst hq
        · refine ⟨⟨h, List.mem_cons_self _ _, hH⟩, ?_⟩
          intro y hy r hr
          rcases List.mem_cons.mp hy with rfl | hy'
          · rw [hH] at hr; injection hr with hr; subst hr; exact le_refl _
          · exact absurd hr (by rw [(bestT_none_iff F rest ray a b g).mp hB y hy']; simp)
        · obtain ⟨⟨x, hx, hxq⟩, hmin⟩ := ih t2 hB
          rcases le_total t1 t2 with hle | hle
          · rw [min_eq_left hle]
            refine ⟨⟨h, List.mem_cons_self _ _, hH⟩, ?_⟩
            intro y hy r hr
            rcases List.mem_cons.mp hy with rfl | hy'
            · rw [hH] at hr; injection hr with hr; subst hr; exact le_refl _
            · exact le_trans hle (hmin y hy' r hr)
          · rw [min_eq_right hle]
            refine ⟨⟨x, List.mem_cons_of_mem _ hx, hxq⟩, ?_⟩
            intro y hy r hr
            rcases List.mem_cons.mp hy with rfl | hy'
            · rw [hH] at hr; injection hr with hr; subst hr; exact hle
            · exact hmin y hy' r hr

theorem scan_best (F : RealFns) (ray : Ray) (a : TB) :
    ∀ (l : List Hittable), noMediumList l = true → (∀ h ∈ l, RangedT F h) →
      (∀ h ∈ l, NarrowT F h) →
      ∀ b g, scanT F l ray a b g = bestT F l ray a b g := by
  intro l
  induction l with
  | nil => intro _ _ _ b g; rw [scanT_nil, bestT_nil]
  | cons h rest ih =>
      intro hm hr hn b g
      simp only [noMediumList, Bool.and_eq_true] at hm
      have hrr := fun x hx => hr x (List.mem_cons_of_mem _ hx)
      have hnn := fun x hx => hn x (List.mem_cons_of_mem _ hx)
      rw [scanT_cons F h rest ray a b g hm.1, bestT_cons]
      rcases hH : hitT F h ray a b g with _ | t1
      · dsimp only
        rw [ih hm.2 hrr hnn b g]; rfl
      · dsimp only
        have ht1b : TB.leB (.fin t1) b = true :=
          (hr h (List.mem_cons_self _ _) ray a b g t1 hH).2
        rw [scan_narrow F ray a rest hm.2 hrr hnn b (.fin t1) g ht1b,
          ih hm.2 hrr hnn b g]
        rcases hB : bestT F rest ray a b g with _ | t2
        · rfl
        · by_cases hle : t2 ≤ t1
          · simp [Option.filter, ominQ, (TB.leB_iff_fin t2 t1).mpr hle, min_eq_right hle]
          · have h12 : t1 ≤ t2 := le_of_lt (lt_of_not_le hle)
            have : TB.leB (.fin t2) (.fin t1) = false := by
              cases hcc : TB.leB (.fin t2) (.fin t1)
              · rfl
              · exact absurd ((TB.leB_iff_fin t2 t1).mp hcc) hle
            simp [Option.filter, ominQ, this, min_eq_left h12]



theorem leB_eq_false_of_ltB {x y : TB} (h : TB.ltB x y = true) : TB.leB y x = false := by
  cases x <;> cases y <;> simp_all [TB.leB, TB.ltB]

theorem leB_maxT_left (x y : TB) : TB.leB x (TB.maxT x y) = true := by
  unfold TB.maxT
  split
  · next h => exact leB_of_ltB h
  · exact TB.leB_refl x

theorem leB_maxT_right (x y : TB) : TB.leB y (TB.maxT x y) = true := by
  unfold TB.maxT
  split
  · exact TB.leB_refl y
  · next h => cases x <;> cases y <;> simp_all [TB.leB, TB.ltB] <;> linarith

theorem maxT_leB {x y z : TB} (h1 : TB.leB x z = true) (h2 : TB.leB y z = true) :
    TB.leB (TB.maxT x y) z = true := by
  unfold TB.maxT
  split <;> assumption

theorem leB_minT_left (x y : TB) : TB.leB (TB.minT x y) x = true := by
  unfold TB.minT
  split
  · next h => exact leB_of_ltB h
  · exact TB.leB_refl x

theorem leB_minT_right (x y : TB) : TB.leB (TB.minT x y) y = true := by
  unfold TB.minT
  split
  · exact TB.leB_refl y
  · next h => cases x <;> cases y <;> simp_all [TB.leB, TB.ltB] <;> linarith

theorem leB_minT {x y z : TB} (h1 : TB.leB z x = true) (h2 : TB.leB z y = true) :
    TB.leB z (TB.minT x y) = true := by
  unfold TB.minT
  split <;> assumption

theorem maxT_mono {x x' y y' : TB} (hx : TB.leB x' x = true) (hy : TB.leB y' y = true) :
    TB.leB (TB.maxT x' y') (TB.maxT x y) = true :=
  maxT_leB (TB.leB_trans hx (leB_maxT_left x y)) (TB.leB_trans hy (leB_maxT_right x y))

theorem minT_mono {x x' y y' : TB} (hx : TB.leB x x' = true) (hy : TB.leB y y' = true) :
    TB.leB (TB.minT x y) (TB.minT x' y') = true :=
  leB_minT (TB.leB_trans (leB_minT_left x y) hx) (TB.leB_trans (leB_minT_right x y) hy)

theorem ltB_of_leB_of_ltB' {x y z : TB} (h1 : TB.leB x y = true)
    (h2 : TB.ltB y z = true) : TB.ltB x z = true := by
  cases x <;> cases y <;> cases z <;> simp_all [TB.leB, TB.ltB, not_lt] <;> linarith

theorem slabAxis_zero (mn mx o : ℚ) (lo hi : TB) :
    slabAxis mn mx o 0 (some (lo, hi)) =
      if o < mn ∨ mx < o then none else some (lo, hi) := by
  simp [slabAxis]

theorem slabAxis_nz {d : ℚ} (hd : d ≠ 0) (mn mx o : ℚ) (lo hi : TB) :
    slabAxis mn mx o d (some (lo, hi)) =
      if TB.leB (TB.minT hi (.fin (if d < 0 then (mn - o) / d else (mx - o) / d)))
          (TB.maxT lo (.fin (if d < 0 then (mx - o) / d else (mn - o) / d))) then none
      else some (TB.maxT lo (.fin (if d < 0 then (mx - o) / d else (mn - o) / d)),
                 TB.minT hi (.fin (if d < 0 then (mn - o) / d else (mx - o) / d))) := by
  simp only [slabAxis, if_neg hd]

theorem slabRel_step {lo hi lo' hi' : TB} {A A' B B' : ℚ}
    (hlo : TB.leB lo' lo = true) (hhi : TB.leB hi hi' = true)
    (hA : A' ≤ A) (hB : B ≤ B') :
    slabRel (if TB.leB (TB.minT hi (.fin B)) (TB.maxT lo (.fin A)) then none
             else some (TB.maxT lo (.fin A), TB.minT hi (.fin B)))
            (if TB.leB (TB.minT hi' (.fin B')) (TB.maxT lo' (.fin A')) then none
             else some (TB.maxT lo' (.fin A'), TB.minT hi' (.fin B'))) := by
  have hlo2 : TB.leB (TB.maxT lo' (.fin A')) (TB.maxT lo (.fin A)) = true :=
    maxT_mono hlo ((TB.leB_iff_fin _ _).mpr hA)
  have hhi2 : TB.leB (TB.minT hi (.fin B)) (TB.minT hi' (.fin B')) = true :=
    minT_mono hhi ((TB.leB_iff_fin _ _).mpr hB)
  split
  · exact trivial
  · next hc1 =>
      have hlt := leB_total hc1
      have hlt' := TB.ltB_of_ltB_of_leB (ltB_of_leB_of_ltB' hlo2 hlt) hhi2
      rw [if_neg (by rw [leB_eq_false_of_ltB hlt']; exact Bool.false_ne_true)]
      exact ⟨hlo2, hhi2⟩

theorem slabAxis_mono {mn mx mn' mx' o d : ℚ} (hmn : mn' ≤ mn) (hmx : mx ≤ mx')
    {s s' : Option (TB × TB)} (hs : slabRel s s') :
    slabRel (slabAxis mn mx o d s) (slabAxis mn' mx' o d s') := by
  rcases s with _ | ⟨lo, hi⟩
  · exact trivial
  rcases s' with _ | ⟨lo', hi'⟩
  · exact hs.elim
  obtain ⟨hlo, hhi⟩ := hs
  by_cases hd : d = 0
  · subst hd
    rw [slabAxis_zero, slabAxis_zero]
    split
    · exact trivial
    · next hout =>
        push_neg at hout
        rw [if_neg (by push_neg; exact ⟨by linarith [hout.1], by linarith [hout.2]⟩)]
        exact ⟨hlo, hhi⟩
  · rw [slabAxis_nz hd, slabAxis_nz hd]
    by_cases hneg : d < 0
    · simp only [if_pos hneg]
      refine slabRel_step hlo hhi ?_ ?_
      · rw [div_eq_mul_inv, div_eq_mul_inv]
        exact mul_le_mul_of_nonpos_right (by linarith) (inv_nonpos.mpr hneg.le)
      · rw [div_eq_mul_inv, div_eq_mul_inv]
        exact mul_le_mul_of_nonpos_right (by linarith) (inv_nonpos.mpr hneg.le)
    · have hpos : 0 < d := lt_of_le_of_ne (not_lt.mp hneg) (Ne.symm hd)
      simp only [if_neg hneg]
      refine slabRel_step hlo hhi ?_ ?_
      · rw [div_eq_mul_inv, div_eq_mul_inv]
        exact mul_le_mul_of_nonneg_right (by linarith) (inv_nonneg.mpr hpos.le)
      · rw [div_eq_mul_inv, div_eq_mul_inv]
        exact mul_le_mul_of_nonneg_right (by linarith) (inv_nonneg.mpr hpos.le)

theorem slabRel_isSome {s s' : Option (TB × TB)} (h : slabRel s s')
    (hs : s.isSome = true) : s'.isSome = true := by
  rcases s with _ | p
  · exact absurd hs (by simp)
  · rcases s' with _ | p'
    · exact h.elim
    · rfl

/-- The slab test is monotone under box inclusion: a ray passing a box's
test passes every enclosing box's test. -/
theorem aabb_hit_mono {bb BB : AABB} (hle : boxLE bb BB) (ray : Ray) (a b : TB)
    (h : bb.hit ray a b = true) : BB.hit ray a b = true := by
  obtain ⟨h1, h2, h3, h4, h5, h6⟩ := hle
  have r0 : slabRel (some (a, b)) (some (a, b)) := ⟨TB.leB_refl a, TB.leB_refl b⟩
  have r1 := slabAxis_mono h1 h4 r0 (o := ray.origin.x) (d := ray.direction.x)
  have r2 := slabAxis_mono h2 h5 r1 (o := ray.origin.y) (d := ray.direction.y)
  have r3 := slabAxis_mono h3 h6 r2 (o := ray.origin.z) (d := ray.direction.z)
  exact slabRel_isSome r3 h

theorem boxLE_trans {x y z : AABB} (h1 : boxLE x y) (h2 : boxLE y z) : boxLE x z := by
  obtain ⟨a1, a2, a3, a4, a5, a6⟩ := h1
  obtain ⟨b1, b2, b3, b4, b5, b6⟩ := h2
  exact ⟨le_trans b1 a1, le_trans b2 a2, le_trans b3 a3,
    le_trans a4 b4, le_trans a5 b5, le_trans a6 b6⟩

theorem surrounding_le_left (x y : AABB) : boxLE x (AABB.surrounding_box x y) :=
  ⟨min_le_left _ _, min_le_left _ _, min_le_left _ _,
   le_max_left _ _, le_max_left _ _, le_max_left _ _⟩

theorem surrounding_le_right (x y : AABB) : boxLE y (AABB.surrounding_box x y) :=
  ⟨min_le_right _ _, min_le_right _ _, min_le_right _ _,
   le_max_right _ _, le_max_right _ _, le_max_right _ _⟩

theorem ominQ_none_right (o : Option ℚ) : ominQ o none = o := by
  cases o <;> rfl

theorem ominQ_comm (x y : Option ℚ) : ominQ x y = ominQ y x := by
  cases x <;> cases y <;> simp [ominQ, min_comm]

theorem ominQ_assoc (x y z : Option ℚ) :
    ominQ (ominQ x y) z = ominQ x (ominQ y z) := by
  cases x <;> cases y <;> cases z <;> simp [ominQ, min_assoc]

theorem ominQ_self_eq (o : Option ℚ) : ominQ o o = ominQ o none := by
  cases o <;> simp [ominQ]

/-- The core of `bvh_node_hit` under well-formedness: when the stored box
covers both children's hits, the left child's hit is in range, and the
right child narrows stably, the node's reported distance is the smaller of
the two children's full-range reported distances. -/
theorem bvh_merge (F : RealFns) (L R : Hittable) (BB : AABB) (ray : Ray) (a : TB)
    (hLm : noMedium L = true) (hRm : noMedium R = true)
    (hLc : ∀ b' g' q, hitT F L ray a b' g' = some q → BB.hit ray a b' = true)
    (hRc : ∀ b' g' q, hitT F R ray a b' g' = some q → BB.hit ray a b' = true)
    (hLr : ∀ b' g' q, hitT F L ray a b' g' = some q → TB.leB (.fin q) b' = true)
    (hRn : ∀ b b' g, TB.leB b' b = true →
      hitT F R ray a b' g = (hitT F R ray a b g).filter (fun q => TB.leB (.fin q) b'))
    (b : TB) (g : RNG) :
    hitT F (.BvhNode L R BB) ray a b g =
      ominQ (hitT F L ray a b g) (hitT F R ray a b g) := by
  have hnode : Hittable.hit F (.BvhNode L R BB) ray a b g =
      bvh_node_hit F L R BB ray a b g := by
    simp only [Hittable.hit]
  rw [hitT, hnode, bvh_node_hit]
  by_cases hbox : BB.hit ray a b = true
  · rw [show (!(BB.hit ray a b)) = false by rw [hbox]; rfl]
    simp only [Bool.false_eq_true, if_false]
    rcases hLo : (Hittable.hit F L ray a b g).1 with _ | rec1
    · have hLpair : Hittable.hit F L ray a b g = (none, g) := by
        rw [hit_pure F L hLm ray a b g g, hLo]
      have hLt : hitT F L ray a b g = none := by rw [hitT, hLo]; rfl
      rw [hLpair, hLt]
      dsimp only
      rcases hRo : (Hittable.hit F R ray a b g).1 with _ | rec2
      · have hRpair : Hittable.hit F R ray a b g = (none, g) := by
          rw [hit_pure F R hRm ray a b g g, hRo]
        have hRt : hitT F R ray a b g = none := by rw [hitT, hRo]; rfl
        rw [hRpair, hRt]
        rfl
      · have hRpair : Hittable.hit F R ray a b g = (some rec2, g) := by
          rw [hit_pure F R hRm ray a b g g, hRo]
        have hRt : hitT F R ray a b g = some rec2.t := by rw [hitT, hRo]; rfl
        rw [hRpair, hRt]
        rfl
    · have hLpair : Hittable.hit F L ray a b g = (some rec1, g) := by
        rw [hit_pure F L hLm ray a b g g, hLo]
      have hLt : hitT F L ray a b g = some rec1.t := by rw [hitT, hLo]; rfl
      rw [hLpair, hLt]
      dsimp only
      have hb1 : TB.leB (.fin rec1.t) b = true := hLr b g rec1.t hLt
      have hRnb := hRn b (.fin rec1.t) g hb1
      rcases hRo : (Hittable.hit F R ray a (.fin rec1.t) g).1 with _ | rec2
      · have hRpair : Hittable.hit F R ray a (.fin rec1.t) g = (none, g) := by
          rw [hit_pure F R hRm ray a (.fin rec1.t) g g, hRo]
        rw [hRpair]
        dsimp only
        have hRtn : hitT F R ray a (.fin rec1.t) g = none := by rw [hitT, hRo]; rfl
        rw [hRtn] at hRnb
        rcases hRb : hitT F R ray a b g with _ | t2
        · rfl
        · rw [hRb] at hRnb
          have hcmp : ¬ TB.leB (.fin t2) (.fin rec1.t) = true := by
            intro hc
            rw [show (some t2).filter (fun q => TB.leB (.fin q) (.fin rec1.t)) = some t2 by
              simp [Option.filter, hc]] at hRnb
            exact absurd hRnb.symm (by simp)
          have h12 : rec1.t ≤ t2 :=
            le_of_lt (lt_of_not_le (fun hc => hcmp ((TB.leB_iff_fin t2 rec1.t).mpr hc)))
          simp [ominQ, min_eq_left h12]
      · have hRpair : Hittable.hit F R ray a (.fin rec1.t) g = (some rec2, g) := by
          rw [hit_pure F R hRm ray a (.fin rec1.t) g g, hRo]
        rw [hRpair]
        dsimp only
        have hRtn : hitT F R ray a (.fin rec1.t) g = some rec2.t := by rw [hitT, hRo]; rfl
        rw [hRtn] at hRnb
        rcases hRb : hitT F R ray a b g with _ | t2
        · rw [hRb] at hRnb
          exact absurd hRnb (by simp [Option.filter])
        · rw [hRb] at hRnb
          by_cases hc : TB.leB (.fin t2) (.fin rec1.t) = true
          · rw [show (some t2).filter (fun q => TB.leB (.fin q) (.fin rec1.t)) = some t2 by
              simp [Option.filter, hc]] at hRnb
            have ht2 : rec2.t = t2 := by injection hRnb
            simp [ominQ, ht2, min_eq_right ((TB.leB_iff_fin t2 rec1.t).mp hc)]
          · rw [show (some t2).filter (fun q => TB.leB (.fin q) (.fin rec1.t)) = none by
              simp [Option.filter, hc]] at hRnb
            exact absurd hRnb (by simp)
  · have hbf : BB.hit ray a b = false := by
      cases hc : BB.hit ray a b
      · rfl
      · exact absurd hc hbox
    rw [show (!(BB.hit ray a b)) = true by rw [hbf]; rfl]
    rw [if_pos rfl]
    have hLnone : hitT F L ray a b g = none := by
      rcases hh : hitT F L ray a b g with _ | q
      · rfl
      · exact absurd (hLc b g q hh) hbox
    have hRnone : hitT F R ray a b g = none := by
      rcases hh : hitT F R ray a b g with _ | q
      · rfl
      · exact absurd (hRc b g q hh) hbox
    rw [hLnone, hRnone]
    rfl

theorem bestT_append (F : RealFns) (l1 l2 : List Hittable) (ray : Ray) (a b : TB)
    (g : RNG) :
    bestT F (l1 ++ l2) ray a b g =
      ominQ (bestT F l1 ray a b g) (bestT F l2 ray a b g) := by
  induction l1 with
  | nil => simp [bestT_nil, ominQ]
  | cons h rest ih =>
      rw [List.cons_append, bestT_cons, bestT_cons, ih, ominQ_assoc]

theorem bestT_perm (F : RealFns) {l1 l2 : List Hittable} (hp : l1.Perm l2) (ray : Ray)
    (a b : TB) (g : RNG) :
    bestT F l1 ray a b g = bestT F l2 ray a b g := by
  induction hp with
  | nil => rfl
  | cons x _ ih => rw [bestT_cons, bestT_cons, ih]
  | swap x y l =>
      rw [bestT_cons, bestT_cons, bestT_cons, bestT_cons, ← ominQ_assoc,
        ← ominQ_assoc, ominQ_comm (hitT F y ray a b g) (hitT F x ray a b g)]
  | trans _ _ ih1 ih2 => exact ih1.trans ih2

theorem leB_fin_min (q r : ℚ) (b : TB) :
    TB.leB (.fin (min q r)) b = true ↔
      (TB.leB (.fin q) b = true ∨ TB.leB (.fin r) b = true) := by
  cases b <;> simp [TB.leB, TB.ltB, not_lt, min_le_iff]

theorem le_of_leB_of_not_leB {q r : ℚ} {b : TB} (hq : TB.leB (.fin q) b = true)
    (hr : ¬ TB.leB (.fin r) b = true) : q ≤ r := by
  cases b <;> simp [TB.leB, TB.ltB, not_lt] at hq hr ⊢ <;> linarith

theorem ominQ_filter (b' : TB) (x y : Option ℚ) :
    ominQ (x.filter (fun q => TB.leB (.fin q) b')) (y.filter (fun q => TB.leB (.fin q) b'))
      = (ominQ x y).filter (fun q => TB.leB (.fin q) b') := by
  rcases x with _ | q
  · simp [ominQ]
  rcases y with _ | r
  · by_cases hq : TB.leB (.fin q) b' = true <;> simp [Option.filter, ominQ, hq]
  by_cases hq : TB.leB (.fin q) b' = true <;> by_cases hr : TB.leB (.fin r) b' = true
  · have : TB.leB (.fin (min q r)) b' = true := (leB_fin_min q r b').mpr (Or.inl hq)
    simp [Option.filter, ominQ, hq, hr, this]
  · have hqr : q ≤ r := le_of_leB_of_not_leB hq hr
    have : TB.leB (.fin (min q r)) b' = true := (leB_fin_min q r b').mpr (Or.inl hq)
    simp [Option.filter, ominQ, hq, hr, this, min_eq_left hqr]
  · have hrq : r ≤ q := le_of_leB_of_not_leB hr hq
    have : TB.leB (.fin (min q r)) b' = true := (leB_fin_min q r b').mpr (Or.inr hr)
    simp [Option.filter, ominQ, hq, hr, this, min_eq_right hrq]
  · have : ¬ TB.leB (.fin (min q r)) b' = true := by
      intro hc
      rcases (leB_fin_min q r b').mp hc with h | h
      · exact hq h
      · exact hr h
    simp [Option.filter, ominQ, hq, hr, this]

theorem bestT_narrow (F : RealFns) (ray : Ray) (a : TB) :
    ∀ (l : List Hittable), (∀ h ∈ l, NarrowT F h) →
      ∀ b b' g, TB.leB b' b = true →
        bestT F l ray a b' g =
          (bestT F l ray a b g).filter (fun q => TB.leB (.fin q) b') := by
  intro l
  induction l with
  | nil => intro _ b b' g _; rw [bestT_nil, bestT_nil]; rfl
  | cons h rest ih =>
      intro hn b b' g hb
      rw [bestT_cons, bestT_cons,
        hn h (List.mem_cons_self _ _) ray a b b' g hb,
        ih (fun x hx => hn x (List.mem_cons_of_mem _ hx)) b b' g hb,
        ominQ_filter]

/-- `mkBvhNode` under well-formed children: the stored box is the union of
the children's boxes and the node's reported distance is the smaller of the
children's. -/
theorem mkBvhNode_exact (F : RealFns) (ray : Ray) (a : TB) (t0 t1 : ℚ) (u v : Hittable)
    (bu bv : AABB)
    (hum : noMedium u = true) (hvm : noMedium v = true)
    (hbu : u.bounding_box t0 t1 = some bu) (hbv : v.bounding_box t0 t1 = some bv)
    (hcu : ∀ b' g q, hitT F u ray a b' g = some q → bu.hit ray a b' = true)
    (hcv : ∀ b' g q, hitT F v ray a b' g = some q → bv.hit ray a b' = true)
    (hru : ∀ b' g q, hitT F u ray a b' g = some q → TB.leB (.fin q) b' = true)
    (hnv : ∀ b b' g, TB.leB b' b = true →
      hitT F v ray a b' g = (hitT F v ray a b g).filter (fun q => TB.leB (.fin q) b')) :
    noMedium (mkBvhNode u v t0 t1) = true ∧
    (mkBvhNode u v t0 t1).bounding_box t0 t1 = some (AABB.surrounding_box bu bv) ∧
    ∀ b g, hitT F (mkBvhNode u v t0 t1) ray a b g =
      ominQ (hitT F u ray a b g) (hitT F v ray a b g) := by
  have hb : mkBvhNode u v t0 t1 = .BvhNode u v (AABB.surrounding_box bu bv) := by
    simp only [mkBvhNode, hbu, hbv]
  refine ⟨?_, ?_, ?_⟩
  · rw [hb]
    simp [noMedium, hum, hvm]
  · rw [hb]
    simp [Hittable.bounding_box]
  · intro b g
    rw [hb]
    exact bvh_merge F u v _ ray a hum hvm
      (fun b' g' q h => aabb_hit_mono (surrounding_le_left bu bv) ray a b' (hcu b' g' q h))
      (fun b' g' q h => aabb_hit_mono (surrounding_le_right bu bv) ray a b' (hcv b' g' q h))
      hru hnv b g

/-- The node assembly of `new_bvh_node` preserves exactness: combining two
children that each report the best distance of their half (with conservative
boxes) yields a node reporting the best distance of the whole list. -/
theorem build_combine (F : RealFns) (ray : Ray) (a : TB) (t0 t1 : ℚ)
    (s l : List Hittable) (hperm : s.Perm l)
    (s1 s2 : List Hittable) (hsplit : s1 ++ s2 = s)
    (hm : ∀ h ∈ l, noMedium h = true) (hr : ∀ h ∈ l, RangedT F h)
    (hn : ∀ h ∈ l, NarrowT F h) (hs : ∀ h ∈ l, SlabOK F h ray a t0 t1)
    (n1 n2 : Hittable)
    (h1 : noMedium n1 = true ∧
      (∃ BB1, n1.bounding_box t0 t1 = some BB1 ∧
        ∀ h ∈ s1, ∀ bb, h.bounding_box t0 t1 = some bb → boxLE bb BB1) ∧
      ∀ b g, hitT F n1 ray a b g = bestT F s1 ray a b g)
    (h2 : noMedium n2 = true ∧
      (∃ BB2, n2.bounding_box t0 t1 = some BB2 ∧
        ∀ h ∈ s2, ∀ bb, h.bounding_box t0 t1 = some bb → boxLE bb BB2) ∧
      ∀ b g, hitT F n2 ray a b g = bestT F s2 ray a b g) :
    noMedium (mkBvhNode n1 n2 t0 t1) = true ∧
    (∃ BB, (mkBvhNode n1 n2 t0 t1).bounding_box t0 t1 = some BB ∧
      ∀ h ∈ l, ∀ bb, h.bounding_box t0 t1 = some bb → boxLE bb BB) ∧
    ∀ b g, hitT F (mkBvhNode n1 n2 t0 t1) ray a b g = bestT F l ray a b g := by
  obtain ⟨h1m, ⟨BB1, hBB1, hc1⟩, hhit1⟩ := h1
  obtain ⟨h2m, ⟨BB2, hBB2, hc2⟩, hhit2⟩ := h2
  have hsub1 : ∀ h ∈ s1, h ∈ l := fun h hh =>
    hperm.subset (hsplit ▸ List.mem_append_left s2 hh)
  have hsub2 : ∀ h ∈ s2, h ∈ l := fun h hh =>
    hperm.subset (hsplit ▸ List.mem_append_right s1 hh)
  have hcu : ∀ b' g q, hitT F n1 ray a b' g = some q → BB1.hit ray a b' = true := by
    intro b' g q hq
    rw [hhit1 b' g] at hq
    obtain ⟨⟨m, hmem, hmq⟩, _⟩ := bestT_spec F ray a b' g s1 q hq
    obtain ⟨bm, hbm, hitm⟩ := hs m (hsub1 m hmem)
    exact aabb_hit_mono (hc1 m hmem bm hbm) ray a b' (hitm b' g q hmq)
  have hcv : ∀ b' g q, hitT F n2 ray a b' g = some q → BB2.hit ray a b' = true := by
    intro b' g q hq
    rw [hhit2 b' g] at hq
    obtain ⟨⟨m, hmem, hmq⟩, _⟩ := bestT_spec F ray a b' g s2 q hq
    obtain ⟨bm, hbm, hitm⟩ := hs m (hsub2 m hmem)
    exact aabb_hit_mono (hc2 m hmem bm hbm) ray a b' (hitm b' g q hmq)
  have hru : ∀ b' g q, hitT F n1 ray a b' g = some q → TB.leB (.fin q) b' = true := by
    intro b' g q hq
    rw [hhit1 b' g] at hq
    obtain ⟨⟨m, hmem, hmq⟩, _⟩ := bestT_spec F ray a b' g s1 q hq
    exact (hr m (hsub1 m hmem) ray a b' g q hmq).2
  have hnv : ∀ b b' g, TB.leB b' b = true →
      hitT F n2 ray a b' g = (hitT F n2 ray a b g).filter (fun q => TB.leB (.fin q) b') := by
    intro b b' g hb
    rw [hhit2 b' g, hhit2 b g]
    exact bestT_narrow F ray a s2 (fun m hmem => hn m (hsub2 m hmem)) b b' g hb
  have hmk := mkBvhNode_exact F ray a t0 t1 n1 n2 BB1 BB2 h1m h2m hBB1 hBB2
    hcu hcv hru hnv
  refine ⟨hmk.1, ⟨AABB.surrounding_box BB1 BB2, hmk.2.1, ?_⟩, ?_⟩
  · intro h hh bb hbb
    have hhs : h ∈ s1 ++ s2 := by
      rw [hsplit]
      exact (hperm.mem_iff).mpr hh
    rcases List.mem_append.mp hhs with hin | hin
    · exact boxLE_trans (hc1 h hin bb hbb) (surrounding_le_left BB1 BB2)
    · exact boxLE_trans (hc2 h hin bb hbb) (surrounding_le_right BB1 BB2)
  · intro b g
    rw [hmk.2.2 b g, hhit1 b g, hhit2 b g, ← bestT_append,
      bestT_perm F (hsplit ▸ hperm) ray a b g]

/-- `new_bvh_node` over a well-formed list builds a medium-free tree whose
stored boxes enclose every member's box and whose reported distance equals
the best distance of the member list, for every query upper bound and
stream. -/
theorem new_bvh_node_exact (F : RealFns) (ray : Ray) (a : TB) (t0 t1 : ℚ) :
    ∀ (n : ℕ) (l : List Hittable), l.length ≤ n → l ≠ [] →
      (∀ h ∈ l, noMedium h = true) → (∀ h ∈ l, RangedT F h) →
      (∀ h ∈ l, NarrowT F h) → (∀ h ∈ l, SlabOK F h ray a t0 t1) →
      ∀ gb : RNG,
        noMedium (new_bvh_node l t0 t1 gb).1 = true ∧
        (∃ BB, ((new_bvh_node l t0 t1 gb).1).bounding_box t0 t1 = some BB ∧
          ∀ h ∈ l, ∀ bb, h.bounding_box t0 t1 = some bb → boxLE bb BB) ∧
        ∀ b g, hitT F (new_bvh_node l t0 t1 gb).1 ray a b g = bestT F l ray a b g := by
  intro n
  induction n with
  | zero =>
      intro l hlen hne _ _ _ _ _
      exact absurd (List.length_eq_zero.mp (Nat.le_zero.mp hlen)) hne
  | succ n ih =>
      intro l hlen hne hm hr hn hs gb
      rcases l with _ | ⟨x, l2⟩
      · exact absurd rfl hne
      rcases l2 with _ | ⟨y, l3⟩
      · -- singleton
        obtain ⟨bx, hbx, hhx⟩ := hs x (List.mem_cons_self _ _)
        have hxm := hm x (List.mem_cons_self _ _)
        have hxr := hr x (List.mem_cons_self _ _)
        have hxn := hn x (List.mem_cons_self _ _)
        have hmk := mkBvhNode_exact F ray a t0 t1 x x bx bx hxm hxm hbx hbx hhx hhx
          (fun b' g q h => (hxr ray a b' g q h).2) (fun b b' g hb => hxn ray a b b' g hb)
        have hunfold : (new_bvh_node [x] t0 t1 gb).1 = mkBvhNode x x t0 t1 := by
          simp only [new_bvh_node]
        rw [hunfold]
        refine ⟨hmk.1, ⟨AABB.surrounding_box bx bx, hmk.2.1, ?_⟩, ?_⟩
        · intro h hh bb hbb
          have hx : h = x := List.mem_singleton.mp hh
          subst hx
          rw [hbx] at hbb
          injection hbb with hbb
          subst hbb
          exact surrounding_le_left _ _
        · intro b g
          rw [hmk.2.2 b g, bestT_cons, bestT_nil, ominQ_self_eq]
      rcases l3 with _ | ⟨z, rest⟩
      · -- pair
        obtain ⟨bu, hbu, hhu⟩ := hs x (List.mem_cons_self _ _)
        obtain ⟨bv, hbv, hhv⟩ := hs y (List.mem_cons_of_mem _ (List.mem_cons_self _ _))
        have hum := hm x (List.mem_cons_self _ _)
        have hvm := hm y (List.mem_cons_of_mem _ (List.mem_cons_self _ _))
        have hur := hr x (List.mem_cons_self _ _)
        have hvr := hr y (List.mem_cons_of_mem _ (List.mem_cons_self _ _))
        have hun := hn x (List.mem_cons_self _ _)
        have hvn := hn y (List.mem_cons_of_mem _ (List.mem_cons_self _ _))
        have pfxy : noMedium (mkBvhNode x y t0 t1) = true ∧
            (∃ BB, (mkBvhNode x y t0 t1).bounding_box t0 t1 = some BB ∧
              ∀ h ∈ [x, y], ∀ bb, h.bounding_box t0 t1 = some bb → boxLE bb BB) ∧
            ∀ b g, hitT F (mkBvhNode x y t0 t1) ray a b g = bestT F [x, y] ray a b g := by
          have hmk := mkBvhNode_exact F ray a t0 t1 x y bu bv hum hvm hbu hbv hhu hhv
            (fun b' g q h => (hur ray a b' g q h).2) (fun b b' g hb => hvn ray a b b' g hb)
          refine ⟨hmk.1, ⟨AABB.surrounding_box bu bv, hmk.2.1, ?_⟩, ?_⟩
          · intro h hh bb hbb
            rcases List.mem_cons.mp hh with rfl | hh2
            · rw [hbu] at hbb
              injection hbb with hbb
              subst hbb
              exact surrounding_le_left _ _
            · have hy : h = y := List.mem_singleton.mp hh2
              subst hy
              rw [hbv] at hbb
              injection hbb with hbb
              subst hbb
              exact surrounding_le_right _ _
          · intro b g
            rw [hmk.2.2 b g, bestT_cons, bestT_cons, bestT_nil, ominQ_none_right]
        have pfyx : noMedium (mkBvhNode y x t0 t1) = true ∧
            (∃ BB, (mkBvhNode y x t0 t1).bounding_box t0 t1 = some BB ∧
              ∀ h ∈ [x, y], ∀ bb, h.bounding_box t0 t1 = some bb → boxLE bb BB) ∧
            ∀ b g, hitT F (mkBvhNode y x t0 t1) ray a b g = bestT F [x, y] ray a b g := by
          have hmk := mkBvhNode_exact F ray a t0 t1 y x bv bu hvm hum hbv hbu hhv hhu
            (fun b' g q h => (hvr ray a b' g q h).2) (fun b b' g hb => hun ray a b b' g hb)
          refine ⟨hmk.1, ⟨AABB.surrounding_box bv bu, hmk.2.1, ?_⟩, ?_⟩
          · intro h hh bb hbb
            rcases List.mem_cons.mp hh with rfl | hh2
            · rw [hbu] at hbb
              injection hbb with hbb
              subst hbb
              exact surrounding_le_right _ _
            · have hy : h = y := List.mem_singleton.mp hh2
              subst hy
              rw [hbv] at hbb
              injection hbb with hbb
              subst hbb
              exact surrounding_le_left _ _
          · intro b g
            rw [hmk.2.2 b g, ominQ_comm, bestT_cons, bestT_cons, bestT_nil,
              ominQ_none_right]
        simp only [new_bvh_node]
        split <;> (try split) <;> (try split) <;>
          first
          | exact pfxy
          | exact pfyx
      · -- three or more
        have hlen' : (x :: y :: z :: rest).length = rest.length + 3 := by
          simp [List.length_cons]
        simp only [new_bvh_node]
        refine build_combine F ray a t0 t1 _ _ (List.mergeSort_perm _ _) _ _
          (List.take_append_drop _ _) hm hr hn hs _ _
          (ih _ ?_ ?_ ?_ ?_ ?_ ?_ _) (ih _ ?_ ?_ ?_ ?_ ?_ ?_ _)
        all_goals
          try simp only [List.length_take, List.length_drop, List.length_mergeSort]
        · rw [hlen']
          rw [hlen'] at hlen
          omega
        · rw [← List.length_pos]
          simp only [List.length_take, List.length_mergeSort]
          rw [hlen']
          omega
        · intro h hh
          exact hm h ((List.mergeSort_perm _ _).subset (List.take_subset _ _ hh))
        · intro h hh
          exact hr h ((List.mergeSort_perm _ _).subset (List.take_subset _ _ hh))
        · intro h hh
          exact hn h ((List.mergeSort_perm _ _).subset (List.take_subset _ _ hh))
        · intro h hh
          exact hs h ((List.mergeSort_perm _ _).subset (List.take_subset _ _ hh))
        · rw [hlen']
          rw [hlen'] at hlen
          omega
        · rw [← List.length_pos]
          simp only [List.length_drop, List.length_mergeSort]
          rw [hlen']
          omega
        · intro h hh
          exact hm h ((List.mergeSort_perm _ _).subset (List.drop_subset _ _ hh))
        · intro h hh
          exact hr h ((List.mergeSort_perm _ _).subset (List.drop_subset _ _ hh))
        · intro h hh
          exact hn h ((List.mergeSort_perm _ _).subset (List.drop_subset _ _ hh))
        · intro h hh
          exact hs h ((List.mergeSort_perm _ _).subset (List.drop_subset _ _ hh))

theorem maxT_fin (p q : ℚ) : TB.maxT (.fin p) (.fin q) = .fin (max p q) := by
  unfold TB.maxT
  split
  · next h => rw [max_eq_right (le_of_lt ((TB.ltB_iff_fin p q).mp h))]
  · next h => rw [max_eq_left (le_of_not_lt (fun hc => h ((TB.ltB_iff_fin p q).mpr hc)))]

theorem minT_fin (p q : ℚ) : TB.minT (.fin p) (.fin q) = .fin (min p q) := by
  unfold TB.minT
  split
  · next h => rw [min_eq_right (le_of_lt ((TB.ltB_iff_fin q p).mp h))]
  · next h => rw [min_eq_left (le_of_not_lt (fun hc => h ((TB.ltB_iff_fin q p).mpr hc)))]

/-- An axis-aligned rectangle crossed perpendicularly behind the lower
bound is slab-sound: its own padded bounding box passes the slab test
whenever the rectangle reports a hit. -/
theorem xy_rect_slabOK (F : RealFns) (m : MaterialHandle) (x0 x1 y0 y1 k : ℚ)
    (ox oy oz time a0 t0 t1 : ℚ)
    (hx0 : x0 ≤ ox) (hx1 : ox ≤ x1) (hy0 : y0 ≤ oy) (hy1 : oy ≤ y1)
    (ha : a0 < k - oz) :
    SlabOK F (.XYRect m x0 x1 y0 y1 k) ⟨⟨ox, oy, oz⟩, ⟨0, 0, 1⟩, time⟩ (.fin a0) t0 t1 := by
  refine ⟨AABB.new ⟨x0, y0, k - 0.0001⟩ ⟨x1, y1, k + 0.0001⟩, by
    simp [Hittable.bounding_box], ?_⟩
  intro b g q hq
  rw [xy_rect_hitT_eq] at hq
  split at hq
  · exact absurd hq (by simp)
  · next hg =>
      push_neg at hg
      have h21 : TB.ltB b (.fin (k - oz)) ≠ true := by simpa using hg.2.1
      have hb : TB.leB (.fin (k - oz)) b = true := by
        cases hX : TB.ltB b (.fin (k - oz))
        · simp [TB.leB, hX]
        · exact absurd hX h21
      show (AABB.hit _ _ _ _) = true
      simp only [AABB.hit, AABB.new]
      rw [slabAxis_zero, if_neg (by push_neg; exact ⟨hx0, hx1⟩),
        slabAxis_zero, if_neg (by push_neg; exact ⟨hy0, hy1⟩),
        slabAxis_nz (by norm_num : (1 : ℚ) ≠ 0),
        if_neg (by norm_num : ¬ (1 : ℚ) < 0),
        if_neg (by norm_num : ¬ (1 : ℚ) < 0)]
      rw [div_one, div_one, maxT_fin]
      rcases b with _ | c | _
      · exact absurd hb (by simp [TB.leB, TB.ltB])
      · have hc : k - oz ≤ c := (TB.leB_iff_fin _ _).mp hb
        rw [minT_fin]
        have hlt : TB.ltB (.fin (max a0 (k - 0.0001 - oz))) (.fin (min c (k + 0.0001 - oz)))
            = true := by
          rw [TB.ltB_iff_fin]
          rw [max_lt_iff, lt_min_iff, lt_min_iff]
          norm_num
          constructor
          · constructor <;> linarith
          · constructor <;> linarith
        rw [if_neg (by rw [leB_eq_false_of_ltB hlt]; exact Bool.false_ne_true)]
        rfl
      · rw [show TB.minT .pinf (.fin (k + 0.0001 - oz)) = .fin (k + 0.0001 - oz) by
          unfold TB.minT TB.ltB; simp]
        have hlt : TB.ltB (.fin (max a0 (k - 0.0001 - oz))) (.fin (k + 0.0001 - oz))
            = true := by
          rw [TB.ltB_iff_fin, max_lt_iff]
          constructor <;> linarith
        rw [if_neg (by rw [leB_eq_false_of_ltB hlt]; exact Bool.false_ne_true)]
        rfl


theorem sphere_point_quadratic (c : Vector3) (r t' : ℚ) (ray : Ray) :
    Vector3.dot (ray.at t' - c) (ray.at t' - c) - r * r =
      ray.direction.length_squared * (t' * t') +
      2 * (Vector3.dot (ray.origin - c) ray.direction) * t' +
      ((ray.origin - c).length_squared - r * r) := by
  simp [Ray.at, Vector3.dot, Vector3.length_squared]
  ring

theorem sphere_root_factor (HB aq CQ S u : ℚ) (haq : aq ≠ 0)
    (hsq : S * S = HB * HB - aq * CQ) :
    aq * (u - (-HB - S) / aq) * (u - (-HB + S) / aq) =
      aq * (u * u) + 2 * HB * u + CQ := by
  have h : aq * (u - (-HB - S) / aq) * (u - (-HB + S) / aq) =
      (aq * u + HB + S) * (aq * u + HB - S) / aq := by
    field_simp
    ring
  rw [h, div_eq_iff haq]
  linear_combination -hsq

theorem leB_of_ltB_eq_false {x y : TB} (h : TB.ltB y x = false) :
    TB.leB x y = true := by
  simp [TB.leB, h]


theorem set_face_normal_front_face (rec : HitRecord) (ray : Ray) (n : Vector3) :
    (rec.set_face_normal ray n).front_face = true ↔ Vector3.dot ray.direction n < 0 := by
  unfold HitRecord.set_face_normal
  split
  · next h => simp [h]
  · next h => simp [h]

theorem set_face_normal_dot (rec : HitRecord) (ray : Ray) (n : Vector3) :
    Vector3.dot ray.direction (rec.set_face_normal ray n).normal ≤ 0 := by
  unfold HitRecord.set_face_normal
  split
  · next h => exact le_of_lt h
  · next h =>
      have h' : 0 ≤ Vector3.dot ray.direction n := le_of_not_lt h
      show Vector3.dot ray.direction (-n) ≤ 0
      simp only [Vector3.dot, Vector3.neg_def] at h' ⊢
      linarith

theorem set_face_normal_length (rec : HitRecord) (ray : Ray) (n : Vector3) :
    ((rec.set_face_normal ray n).normal).length_squared = n.length_squared := by
  unfold HitRecord.set_face_normal
  split
  · rfl
  · show (-n).length_squared = n.length_squared
    simp only [Vector3.length_squared, Vector3.neg_def]
    ring

mutual

theorem hit_orient (F : RealFns) (h : Hittable) (ho : orientable h = true) (ray : Ray)
    (a b : TB) (g : RNG) (rec : HitRecord)
    (hrec : (h.hit F ray a b g).1 = some rec) :
    Vector3.dot ray.direction rec.normal ≤ 0 := by
  cases h with
  | Sphere m c r =>
      simp only [Hittable.hit] at hrec
      unfold sphere_hit at hrec
      dsimp only at hrec
      split at hrec
      · exact absurd hrec (by simp)
      · split at hrec
        · exact absurd hrec (by simp)
        · injection hrec with hrec
          subst hrec
          exact set_face_normal_dot _ _ _
  | MovingSphere m c0 c1 t0 t1 r =>
      simp only [Hittable.hit] at hrec
      unfold sphere_hit at hrec
      dsimp only at hrec
      split at hrec
      · exact absurd hrec (by simp)
      · split at hrec
        · exact absurd hrec (by simp)
        · injection hrec with hrec
          subst hrec
          exact set_face_normal_dot _ _ _
  | XYRect m x0 x1 y0 y1 k =>
      simp only [Hittable.hit] at hrec
      unfold xy_rect_hit at hrec
      dsimp only at hrec
      split at hrec
      · exact absurd hrec (by simp)
      · split at hrec
        · exact absurd hrec (by simp)
        · injection hrec with hrec
          subst hrec
          exact set_face_normal_dot _ _ _
  | XZRect m x0 x1 z0 z1 k =>
      simp only [Hittable.hit] at hrec
      unfold xz_rect_hit at hrec
      dsimp only at hrec
      split at hrec
      · exact absurd hrec (by simp)
      · split at hrec
        · exact absurd hrec (by simp)
        · injection hrec with hrec
          subst hrec
          exact set_face_normal_dot _ _ _
  | YZRect m y0 y1 z0 z1 k =>
      simp only [Hittable.hit] at hrec
      unfold yz_rect_hit at hrec
      dsimp only at hrec
      split at hrec
      · exact absurd hrec (by simp)
      · split at hrec
        · exact absurd hrec (by simp)
        · injection hrec with hrec
          subst hrec
          exact set_face_normal_dot _ _ _
  | BvhNode L R bb =>
      simp only [orientable, Bool.and_eq_true] at ho
      simp only [Hittable.hit, bvh_node_hit] at hrec
      split at hrec
      · exact absurd hrec (by simp)
      · rcases hL : L.hit F ray a b g with ⟨oL, gL⟩
        rw [hL] at hrec
        cases oL with
        | some rec1 =>
            dsimp only at hrec
            rcases hR : R.hit F ray a (.fin rec1.t) gL with ⟨oR, gR⟩
            rw [hR] at hrec
            cases oR with
            | some rec2 =>
                dsimp only at hrec
                injection hrec with hrec
                subst hrec
                exact hit_orient F R ho.2 ray a (.fin rec1.t) gL rec2 (by rw [hR])
            | none =>
                dsimp only at hrec
                injection hrec with hrec
                subst hrec
                exact hit_orient F L ho.1 ray a b g rec1 (by rw [hL])
        | none =>
            dsimp only at hrec
            rcases hR : R.hit F ray a b gL with ⟨oR, gR⟩
            rw [hR] at hrec
            cases oR with
            | some rec2 =>
                dsimp only at hrec
                injection hrec with hrec
                subst hrec
                exact hit_orient F R ho.2 ray a b gL rec2 (by rw [hR])
            | none =>
                dsimp only at hrec
                exact absurd hrec (by simp)
  | Box m mn mx sides =>
      simp only [orientable] at ho
      simp only [Hittable.hit] at hrec
      exact hit_hittables_orient F sides ho ray a b g rec hrec
  | Translate off ptr =>
      simp only [orientable] at ho
      simp only [Hittable.hit] at hrec
      rcases hP : ptr.hit F (Ray.with_time (ray.origin - off) ray.direction ray.time) a b g
        with ⟨oP, gP⟩
      rw [hP] at hrec
      cases oP with
      | some rec1 =>
          dsimp only at hrec
          injection hrec with hrec
          subst hrec
          exact set_face_normal_dot _ _ _
      | none =>
          dsimp only at hrec
          exact absurd hrec (by simp)
  | RotateY s c hb bb ptr => simp [orientable] at ho
  | ConstantMedium pf bnd nid => simp [orientable] at ho
termination_by 2 * sizeOf h + 1
decreasing_by
  all_goals subst_vars
  all_goals simp_wf
  all_goals try omega

theorem hit_hittables_orient (F : RealFns) (l : List Hittable)
    (ho : orientableList l = true) (ray : Ray) (a b : TB) (g : RNG) (rec : HitRecord)
    (hrec : (hit_hittables F l ray a b g).1 = some rec) :
    Vector3.dot ray.direction rec.normal ≤ 0 := by
  cases l with
  | nil => simp [hit_hittables] at hrec
  | cons h rest =>
      simp only [orientableList, Bool.and_eq_true] at ho
      simp only [hit_hittables] at hrec
      rcases hH : h.hit F ray a b g with ⟨oH, gH⟩
      rw [hH] at hrec
      cases oH with
      | some rec1 =>
          dsimp only at hrec
          rcases hR : hit_hittables F rest ray a (.fin rec1.t) gH with ⟨oR, gR⟩
          rw [hR] at hrec
          cases oR with
          | some rec2 =>
              dsimp only at hrec
              injection hrec with hrec
              subst hrec
              exact hit_hittables_orient F rest ho.2 ray a (.fin rec1.t) gH rec2 (by rw [hR])
          | none =>
              dsimp only at hrec
              injection hrec with hrec
              subst hrec
              exact hit_orient F h ho.1 ray a b g rec1 (by rw [hH])
      | none =>
          dsimp only at hrec
          exact hit_hittables_orient F rest ho.2 ray a b gH rec hrec
termination_by 2 * sizeOf l + 1
decreasing_by
  all_goals subst_vars
  all_goals simp_wf
  all_goals try omega

end

theorem dot_self_eq_length_squared (v : Vector3) :
    Vector3.dot v v = v.length_squared := by
  simp [Vector3.dot, Vector3.length_squared]

/-- A sphere hit's stored normal is unit-length, given a nonzero direction,
a nonzero radius, and a square-root stand-in exact on the queried
discriminant (so that the accepted root lies exactly on the sphere). -/
theorem sphere_unit_normal (F : RealFns) (m : MaterialHandle) (c : Vector3) (r : ℚ)
    (ray : Ray) (a b : TB) (g : RNG) (rec : HitRecord)
    (haq : ray.direction.length_squared ≠ 0) (hr : r ≠ 0)
    (hsq : F.sqrtQ (Vector3.dot (ray.origin - c) ray.direction *
          Vector3.dot (ray.origin - c) ray.direction -
          ray.direction.length_squared * ((ray.origin - c).length_squared - r * r)) *
        F.sqrtQ (Vector3.dot (ray.origin - c) ray.direction *
          Vector3.dot (ray.origin - c) ray.direction -
          ray.direction.length_squared * ((ray.origin - c).length_squared - r * r)) =
        Vector3.dot (ray.origin - c) ray.direction *
          Vector3.dot (ray.origin - c) ray.direction -
          ray.direction.length_squared * ((ray.origin - c).length_squared - r * r))
    (hrec : ((.Sphere m c r : Hittable).hit F ray a b g).1 = some rec) :
    rec.normal.length_squared = 1 := by
  simp only [Hittable.hit] at hrec
  unfold sphere_hit at hrec
  dsimp only at hrec
  split at hrec
  · exact absurd hrec (by simp)
  · split at hrec
    · exact absurd hrec (by simp)
    · rename_i root hroot
      injection hrec with hrec
      subst hrec
      rw [set_face_normal_length]
      have hcase : root = (-(Vector3.dot (ray.origin - c) ray.direction) -
            F.sqrtQ (Vector3.dot (ray.origin - c) ray.direction *
              Vector3.dot (ray.origin - c) ray.direction -
              ray.direction.length_squared * ((ray.origin - c).length_squared - r * r))) /
            ray.direction.length_squared ∨
          root = (-(Vector3.dot (ray.origin - c) ray.direction) +
            F.sqrtQ (Vector3.dot (ray.origin - c) ray.direction *
              Vector3.dot (ray.origin - c) ray.direction -
              ray.direction.length_squared * ((ray.origin - c).length_squared - r * r))) /
            ray.direction.length_squared := by
        split at hroot
        · split at hroot
          · exact absurd hroot (by simp)
          · injection hroot with hroot
            exact Or.inr hroot.symm
        · injection hroot with hroot
          exact Or.inl hroot.symm
      have hquad0 : ray.direction.length_squared * (root * root) +
          2 * Vector3.dot (ray.origin - c) ray.direction * root +
          ((ray.origin - c).length_squared - r * r) = 0 := by
        have hfac := sphere_root_factor (Vector3.dot (ray.origin - c) ray.direction)
          ray.direction.length_squared ((ray.origin - c).length_squared - r * r)
          (F.sqrtQ (Vector3.dot (ray.origin - c) ray.direction *
            Vector3.dot (ray.origin - c) ray.direction -
            ray.direction.length_squared * ((ray.origin - c).length_squared - r * r)))
          root haq hsq
        rcases hcase with h | h
        · rw [← hfac, h]
          ring
        · rw [← hfac, h]
          ring
      have hon : (ray.at root - c).length_squared = r * r := by
        have hq := sphere_point_quadratic c r root ray
        rw [dot_self_eq_length_squared] at hq
        linarith
      show ((ray.at root - c).divQ r).length_squared = 1
      simp only [Vector3.divQ, Vector3.smul_def, Vector3.sub_def,
        Vector3.length_squared] at hon ⊢
      field_simp
      linear_combination hon

/-- An axis-aligned rectangle hit's stored normal is one of the two unit
plane normals, and `front_face` records the sign test of the un-flipped
outward normal `(0,0,1)` against the ray direction. -/
theorem xy_rect_record (F : RealFns) (m : MaterialHandle) (x0 x1 y0 y1 k : ℚ)
    (ray : Ray) (a b : TB) (g : RNG) (rec : HitRecord)
    (hrec : ((.XYRect m x0 x1 y0 y1 k : Hittable).hit F ray a b g).1 = some rec) :
    rec.normal.length_squared = 1 ∧
    (rec.front_face = true ↔ ray.direction.z < 0) := by
  simp only [Hittable.hit] at hrec
  unfold xy_rect_hit at hrec
  dsimp only at hrec
  split at hrec
  · exact absurd hrec (by simp)
  · split at hrec
    · exact absurd hrec (by simp)
    · injection hrec with hrec
      subst hrec
      constructor
      · rw [set_face_normal_length]
        norm_num [Vector3.length_squared]
      · rw [set_face_normal_front_face]
        constructor
        · intro hd
          simpa [Vector3.dot] using hd
        · intro hd
          simpa [Vector3.dot] using hd

/-! The claims. -/

/-- C1: `hittables_bounding_box` is claimed to return the union of all
members' boxes.  The code's loop overwrites `final_box` with each member's
box instead of unioning (`surrounding_box` is never called), so on a list
of two disjoint spheres it returns the second sphere's box, which does not
contain the first member's box; the union (which `surrounding_box`
computes) differs.  The `none` conditions (empty list, member without a
box) do hold. -/
theorem claim_C1_returns_last_box_not_union :
    (hittables_bounding_box
        [Hittable.Sphere 1 ⟨0, 0, 0⟩ 1, Hittable.Sphere 2 ⟨10, 0, 0⟩ 1] 0 1
      = some (AABB.new ⟨9, -1, -1⟩ ⟨11, 1, 1⟩)) ∧
    ((Hittable.Sphere 1 ⟨0, 0, 0⟩ 1).bounding_box 0 1
      = some (AABB.new ⟨-1, -1, -1⟩ ⟨1, 1, 1⟩)) ∧
    (AABB.surrounding_box (AABB.new ⟨-1, -1, -1⟩ ⟨1, 1, 1⟩) (AABB.new ⟨9, -1, -1⟩ ⟨11, 1, 1⟩)
      = AABB.new ⟨-1, -1, -1⟩ ⟨11, 1, 1⟩) ∧
    ¬ boxLE (AABB.new ⟨-1, -1, -1⟩ ⟨1, 1, 1⟩) (AABB.new ⟨9, -1, -1⟩ ⟨11, 1, 1⟩) := by
  refine ⟨?_, ?_, ?_, ?_⟩
  · norm_num [hittables_bounding_box, hbbLoop, Hittable.bounding_box, sphere_bounding_box,
      AABB.new]
  · norm_num [Hittable.bounding_box, sphere_bounding_box, AABB.new]
  · norm_num [AABB.surrounding_box, AABB.new]
  · intro hcontra
    exact absurd hcontra.1 (by norm_num [AABB.new])

/-- C8, counterexample: the ranged uniform double source called by
`random_int_range(0, 2)` is `gen_range(0..=3)`, inclusive, so it may
return exactly `3`; truncation then yields `3`, outside the claimed
inclusive range `[0, 2]`. -/
theorem claim_C8_counterexample :
    ((random_int_range 0 2 (constRNG 3)).1 = 3) ∧
    ((0 : ℚ) ≤ constRNG 3 0 ∧ constRNG 3 0 ≤ ((2 : ℤ) : ℚ) + 1) ∧
    ¬((random_int_range 0 2 (constRNG 3)).1 ≤ 2) := by
  norm_num [random_int_range, random_double_range, truncToInt, constRNG]

/-- C8, amended: for `0 ≤ min ≤ max`, `random_int_range(min, max)`
returns an integer in `[min, max]` for every ranged draw strictly below
`max + 1`; the inclusive upper draw `max + 1` itself yields `max + 1`,
outside the claimed range (and a negative `min` can also escape the range,
since `as i32` truncates toward zero). -/
theorem claim_C8_amended (min max : ℤ) (g : RNG)
    (h0 : 0 ≤ min) (hlo : (min : ℚ) ≤ g 0) (hhi : g 0 < (max : ℚ) + 1) :
    min ≤ (random_int_range min max g).1 ∧ (random_int_range min max g).1 ≤ max := by
  have h1 : (0 : ℚ) ≤ g 0 := le_trans (by exact_mod_cast h0) hlo
  have hfloor : (random_int_range min max g).1 = ⌊g 0⌋ := by
    simp [random_int_range, random_double_range, truncToInt, h1]
  rw [hfloor]
  constructor
  · exact Int.le_floor.mpr hlo
  · have h2 : ⌊g 0⌋ < max + 1 := Int.floor_lt.mpr (by exact_mod_cast hhi)
    omega

/-- C8, witness: the amended statement at `min = 0`, `max = 2` and the
draw `5/2`. -/
theorem claim_C8_witness :
    0 ≤ (random_int_range 0 2 (constRNG (5 / 2))).1 ∧
    (random_int_range 0 2 (constRNG (5 / 2))).1 ≤ 2 :=
  claim_C8_amended 0 2 (constRNG (5 / 2)) (by decide) (by norm_num [constRNG])
    (by norm_num [constRNG])

/-- C3, counterexample: a ray with `direction.z = 0` whose origin lies
exactly in the rectangle's plane (`origin.z = k`).  The plane-crossing
division is `0/0 = NaN`; every subsequent rejection test (`t < t_min`,
`t > t_max`, and the 2D extent comparisons on the NaN coordinates) is an
IEEE comparison with NaN and evaluates false, so nothing rejects the hit:
`xy_rect_hit` returns a record with `t = NaN` instead of the claimed
`none`. -/
theorem claim_C3_counterexample :
    (⟨⟨1 / 2, 1 / 2, 0⟩, ⟨0, 1, 0⟩, 0⟩ : Ray).direction.z = 0 ∧
    (⟨⟨1 / 2, 1 / 2, 0⟩, ⟨0, 1, 0⟩, 0⟩ : Ray).origin.z = 0 ∧
    ((FP.xy_rect_hit 0 1 0 1 0 ⟨⟨1 / 2, 1 / 2, 0⟩, ⟨0, 1, 0⟩, 0⟩
        (.fin (1 / 1000)) (.fin 1000) 3).map (fun r => r.t) = some FP.nan) := by
  norm_num [FP.xy_rect_hit, FP.div, FP.sub, FP.add, FP.neg, FP.mul, FP.ltF, Vector3.dot]

/-- C3, amended: for finite query bounds, a ray with a zero direction
component along the rectangle's plane normal whose origin is NOT in the
plane `k` is rejected: the division yields `±∞` and the `t < t_min` /
`t > t_max` checks catch it.  The `0/0` case (origin exactly in the
plane) instead produces a NaN record (see the counterexample), and a
`+∞` exit with an infinite `t_max` can likewise slip through. -/
theorem claim_C3_amended :
    ∀ (b0 b1 b2 b3 k : ℚ) (ray : Ray) (a b : ℚ) (m : MaterialHandle),
      (ray.direction.z = 0 → ray.origin.z ≠ k →
        FP.xy_rect_hit b0 b1 b2 b3 k ray (.fin a) (.fin b) m = none) ∧
      (ray.direction.y = 0 → ray.origin.y ≠ k →
        FP.xz_rect_hit b0 b1 b2 b3 k ray (.fin a) (.fin b) m = none) ∧
      (ray.direction.x = 0 → ray.origin.x ≠ k →
        FP.yz_rect_hit b0 b1 b2 b3 k ray (.fin a) (.fin b) m = none) := by
  intro b0 b1 b2 b3 k ray a b m
  refine ⟨fun hd ho => ?_, fun hd ho => ?_, fun hd ho => ?_⟩
  · have hne : k + -ray.origin.z ≠ 0 := fun hc => ho (by linarith)
    simp only [FP.xy_rect_hit, FP.div, FP.sub, FP.add, FP.neg, hd, if_pos rfl, hne,
      if_neg hne, FP.ltF]
    split <;> simp_all [FP.ltF]
  · have hne : k + -ray.origin.y ≠ 0 := fun hc => ho (by linarith)
    simp only [FP.xz_rect_hit, FP.div, FP.sub, FP.add, FP.neg, hd, if_pos rfl, hne,
      if_neg hne, FP.ltF]
    split <;> simp_all [FP.ltF]
  · have hne : k + -ray.origin.x ≠ 0 := fun hc => ho (by linarith)
    simp only [FP.yz_rect_hit, FP.div, FP.sub, FP.add, FP.neg, hd, if_pos rfl, hne,
      if_neg hne, FP.ltF]
    split <;> simp_all [FP.ltF]

/-- C3, witness: the amended statement on a concrete parallel,
non-coplanar ray against each rectangle kind. -/
theorem claim_C3_witness :
    FP.xy_rect_hit 0 1 0 1 0 ⟨⟨1 / 2, 1 / 2, 5⟩, ⟨0, 1, 0⟩, 0⟩
      (.fin (1 / 1000)) (.fin 1000) 3 = none ∧
    FP.xz_rect_hit 0 1 0 1 0 ⟨⟨1 / 2, 5, 1 / 2⟩, ⟨0, 0, 1⟩, 0⟩
      (.fin (1 / 1000)) (.fin 1000) 3 = none ∧
    FP.yz_rect_hit 0 1 0 1 0 ⟨⟨5, 1 / 2, 1 / 2⟩, ⟨0, 0, 1⟩, 0⟩
      (.fin (1 / 1000)) (.fin 1000) 3 = none :=
  ⟨(claim_C3_amended 0 1 0 1 0 ⟨⟨1 / 2, 1 / 2, 5⟩, ⟨0, 1, 0⟩, 0⟩ (1 / 1000) 1000 3).1
      rfl (by norm_num),
   (claim_C3_amended 0 1 0 1 0 ⟨⟨1 / 2, 5, 1 / 2⟩, ⟨0, 0, 1⟩, 0⟩ (1 / 1000) 1000 3).2.1
      rfl (by norm_num),
   (claim_C3_amended 0 1 0 1 0 ⟨⟨5, 1 / 2, 1 / 2⟩, ⟨0, 0, 1⟩, 0⟩ (1 / 1000) 1000 3).2.2
      rfl (by norm_num)⟩

/-- C10: the `RotateY` arm of `bounding_box` ignores the query times: it
returns the stored box (the corner-rotated image of the child's box
queried at the fixed times `(0.0, 1.0)` at construction) whenever the
child had a box at construction, and `none` otherwise. -/
theorem claim_C10_rotate_y_box_time_independent (F : RealFns) (angle : ℚ) (h : Hittable)
    (t0 t1 t0' t1' : ℚ) :
    ((new_rotate_y F angle h).bounding_box t0 t1
        = (new_rotate_y F angle h).bounding_box t0' t1') ∧
    ((new_rotate_y F angle h).bounding_box t0 t1
        = (h.bounding_box 0 1).map
            (rotatedCornerBox (F.sinQ (degrees_to_radians angle))
              (F.cosQ (degrees_to_radians angle)))) := by
  unfold new_rotate_y
  cases hb : h.bounding_box 0 1 <;> simp [Hittable.bounding_box, hb]

/-- C9: the `Translate` arm moves the ray by `-offset`, intersects the
child, and when the child hits, returns its record with the point shifted
by `+offset` and the normal/face flag re-derived by `set_face_normal`
against the moved ray (whose direction equals the incoming ray's); the
`t`, `u`, `v` and material fields pass through unchanged. -/
theorem claim_C9_translate_frame (F : RealFns) (v : Vector3) (inner : Hittable) (ray : Ray)
    (t_min t_max : TB) (g : RNG) (rec : HitRecord)
    (hout : ((Hittable.Translate v inner).hit F ray t_min t_max g).1 = some rec) :
    ∃ rec', ((inner.hit F (Ray.with_time (ray.origin - v) ray.direction ray.time)
        t_min t_max g).1 = some rec') ∧
      rec.t = rec'.t ∧ rec.u = rec'.u ∧ rec.v = rec'.v ∧
      rec.mat_handle = rec'.mat_handle ∧
      rec.point = rec'.point + v ∧
      (rec.front_face = true ↔ Vector3.dot ray.direction rec'.normal < 0) ∧
      rec.normal = (if Vector3.dot ray.direction rec'.normal < 0
                    then rec'.normal else -rec'.normal) := by
  rw [Hittable.hit] at hout
  rcases hinner : inner.hit F (Ray.with_time (ray.origin - v) ray.direction ray.time)
      t_min t_max g with ⟨orec, g'⟩
  rw [hinner] at hout
  cases orec with
  | none => simp at hout
  | some rec' =>
      refine ⟨rec', rfl, ?_⟩
      simp only [HitRecord.set_face_normal, Ray.with_time] at hout
      split at hout
      · rename_i hlt; injection hout with h1; subst h1; simp_all
      · rename_i hlt; injection hout with h1; subst h1; rw [if_neg hlt]; simp_all

/-- C9, witness: a rectangle translated by `(0,0,1)`, hit by a concrete
ray. -/
theorem claim_C9_witness :
    ∃ rec', ((Hittable.XYRect 3 0 1 0 1 0).hit defaultFns
        (Ray.with_time ((⟨1 / 2, 1 / 2, -5⟩ : Vector3) - ⟨0, 0, 1⟩) ⟨0, 0, 1⟩ 0)
        (.fin 0) (.fin 100) (constRNG 0)).1 = some rec' ∧
      (6 : ℚ) = rec'.t ∧ (1 / 2 : ℚ) = rec'.u ∧ (1 / 2 : ℚ) = rec'.v ∧
      (3 : MaterialHandle) = rec'.mat_handle ∧
      (⟨1 / 2, 1 / 2, 1⟩ : Vector3) = rec'.point + ⟨0, 0, 1⟩ ∧
      (true = true ↔ Vector3.dot (⟨0, 0, 1⟩ : Vector3) rec'.normal < 0) ∧
      (⟨0, 0, -1⟩ : Vector3) = (if Vector3.dot (⟨0, 0, 1⟩ : Vector3) rec'.normal < 0
          then rec'.normal else -rec'.normal) :=
  claim_C9_translate_frame defaultFns ⟨0, 0, 1⟩ (Hittable.XYRect 3 0 1 0 1 0)
    ⟨⟨1 / 2, 1 / 2, -5⟩, ⟨0, 0, 1⟩, 0⟩ (.fin 0) (.fin 100) (constRNG 0)
    ⟨⟨1 / 2, 1 / 2, 1⟩, ⟨0, 0, -1⟩, 6, true, 3, 1 / 2, 1 / 2⟩
    (by norm_num [Hittable.hit, xy_rect_hit, Ray.with_time, Vector3.dot, TB.ltB, Ray.at,
      HitRecord.new, HitRecord.set_face_normal])

/-- C7: the concrete sphere scenario.  The only square root taken is
`√1 = 1` (the discriminant is `25 - 24 = 1`), stated as a hypothesis on
the square-root stand-in; `f64::sqrt` computes exactly `1.0` there. -/
theorem claim_C7_concrete_sphere (F : RealFns) (M : MaterialHandle) (tmin tmax time : ℚ)
    (g : RNG) (hF : F.sqrtQ 1 = 1) (h1 : tmin < 4) (h2 : 4 ≤ tmax) :
    ∃ rec, ((Hittable.Sphere M ⟨0, 0, 0⟩ 1).hit F ⟨⟨0, 0, -5⟩, ⟨0, 0, 1⟩, time⟩
        (.fin tmin) (.fin tmax) g).1 = some rec ∧
      rec.t = 4 ∧ rec.point = ⟨0, 0, -1⟩ ∧ rec.normal = ⟨0, 0, -1⟩ ∧
      rec.front_face = true ∧ rec.mat_handle = M := by
  rw [Hittable.hit]
  have e1 : ¬ ((4 : ℚ) < tmin) := not_lt.mpr (le_of_lt h1)
  have e2 : ¬ (tmax < (4 : ℚ)) := not_lt.mpr h2
  norm_num [sphere_hit, Vector3.dot, Vector3.length_squared, Vector3.divQ, hF,
    TB.ltB, e1, e2, Ray.at, HitRecord.new, HitRecord.set_face_normal]

/-- C7, witness: the scenario at `t_min = 0`, `t_max = 10`, with the
concrete square-root stand-in. -/
theorem claim_C7_witness :
    ∃ rec, ((Hittable.Sphere 7 ⟨0, 0, 0⟩ 1).hit defaultFns ⟨⟨0, 0, -5⟩, ⟨0, 0, 1⟩, 0⟩
        (.fin 0) (.fin 10) (constRNG 0)).1 = some rec ∧
      rec.t = 4 ∧ rec.point = ⟨0, 0, -1⟩ ∧ rec.normal = ⟨0, 0, -1⟩ ∧
      rec.front_face = true ∧ rec.mat_handle = 7 :=
  claim_C7_concrete_sphere defaultFns 7 0 10 0 (constRNG 0)
    (by norm_num [defaultFns, ratSqrt]) (by norm_num) (by norm_num)

/-- C2, counterexample: two rectangles whose hits tie at `t = 1` for the
ray.  The linear scan keeps the later member's record; the BVH (built with
axis draw `0`; the x-minima tie, so the comparator is not `Less` and the
children are swapped) keeps the other: the two traversals return records
with the same `t` and point but different normals (and materials),
refuting the claimed identity of normals. -/
theorem claim_C2_counterexample :
    (((new_bvh_node [Hittable.XYRect 1 0 1 0 2 1, Hittable.XZRect 2 0 1 0 2 1] 0 0
        (constRNG 0)).1.hit defaultFns ⟨⟨1 / 2, 0, 0⟩, ⟨0, 1, 1⟩, 0⟩
        (.fin 0) (.fin 100) (constRNG 0)).1
      = some ⟨⟨1 / 2, 1, 1⟩, ⟨0, 0, -1⟩, 1, false, 1, 1 / 2, 1 / 2⟩) ∧
    ((hit_hittables defaultFns [Hittable.XYRect 1 0 1 0 2 1, Hittable.XZRect 2 0 1 0 2 1]
        ⟨⟨1 / 2, 0, 0⟩, ⟨0, 1, 1⟩, 0⟩ (.fin 0) (.fin 100) (constRNG 0)).1
      = some ⟨⟨1 / 2, 1, 1⟩, ⟨0, -1, 0⟩, 1, false, 2, 1 / 2, 1 / 2⟩) ∧
    (⟨0, 0, -1⟩ : Vector3) ≠ ⟨0, -1, 0⟩ := by
  refine ⟨?_, ?_, by simp⟩
  · norm_num [new_bvh_node, random_int_range, random_double_range, truncToInt, constRNG,
      box_x_compare, box_y_compare, box_z_compare, boxMinAxis, ordCompare,
      Hittable.bounding_box, mkBvhNode, AABB.new, AABB.surrounding_box,
      eq_false (by decide : ¬ (Ordering.eq = Ordering.lt))]
    norm_num [Hittable.hit, bvh_node_hit, AABB.hit, slabAxis, TB.maxT, TB.minT, TB.leB,
      TB.ltB, xy_rect_hit, xz_rect_hit, Vector3.dot, Ray.at, HitRecord.new,
      HitRecord.set_face_normal]
  · norm_num [hit_hittables, Hittable.hit, xy_rect_hit, xz_rect_hit, Vector3.dot,
      TB.ltB, Ray.at, HitRecord.new, HitRecord.set_face_normal]

/-- C4, counterexample: a sphere whose near root equals `t_min` exactly.
The code's rejection test is `root < t_min`, so `root = t_min` is
accepted and returned: the reported `t` is NOT in the claimed half-open
interval `(t_min, t_max]` — the low end is included, not excluded. -/
theorem claim_C4_counterexample :
    ((sphere_hit defaultFns ⟨0, 0, 0⟩ 1 ⟨⟨0, 0, -5⟩, ⟨0, 0, 1⟩, 0⟩
        (.fin 4) (.fin 10) 7).map (fun r => r.t) = some 4) ∧ ¬((4 : ℚ) < 4) := by
  norm_num [sphere_hit, Vector3.dot, Vector3.length_squared, Vector3.divQ, defaultFns,
    ratSqrt, TB.ltB, Ray.at, HitRecord.new, HitRecord.set_face_normal, sphere_uv, PI]

/-- C5, counterexample: a `RotateY` (90 degrees: stored `sin = 1`,
`cos = 0`) around a rectangle.  `hit_rotate_y` re-orients the rotated-back
world normal against the LOCAL (rotated) ray, mixing frames: for this ray
the returned record has `normal = (1,0,0)` with
`dot(direction, normal) = 1 > 0` (the normal points with the ray, not
against it), and `front_face = false` although the un-flipped world
normal `(-1,0,0)` satisfies `dot(direction, (-1,0,0)) < 0`. -/
theorem claim_C5_counterexample :
    (((Hittable.RotateY 1 0 true (AABB.new ⟨0, 0, 0⟩ ⟨0, 0, 0⟩)
        (Hittable.XYRect 5 0 1 0 1 0)).hit defaultFns
        ⟨⟨-3, 1 / 2, -7 / 2⟩, ⟨1, 0, 1⟩, 0⟩ (.fin 0) (.fin 100) (constRNG 0)).1
      = some ⟨⟨0, 1 / 2, -1 / 2⟩, ⟨1, 0, 0⟩, 3, false, 5, 1 / 2, 1 / 2⟩) ∧
    ¬(Vector3.dot (⟨1, 0, 1⟩ : Vector3) ⟨1, 0, 0⟩ ≤ 0) ∧
    Vector3.dot (⟨1, 0, 1⟩ : Vector3) ⟨-1, 0, 0⟩ < 0 := by
  refine ⟨?_, by norm_num [Vector3.dot], by norm_num [Vector3.dot]⟩
  rw [Hittable.hit]
  norm_num [hit_rotate_y, Hittable.hit, xy_rect_hit, Vector3.dot, Ray.with_time,
    TB.ltB, Ray.at, HitRecord.new, HitRecord.set_face_normal]

/-- C6, counterexample: `hit_hittables` can miss the globally nearest hit.
The second member is a BVH node built (by `new_bvh_node`, axis draw `0`)
over a moving sphere; its stored box covers the keyframe motion, but the
ray's time `-1` is outside the keyframe interval and
`get_center_at_time` extrapolates the center outside the box.  Scanned
after a rectangle hit at `t = 10`, the node's slab test fails on the
narrowed range `[0, 10]` and the node reports nothing, so the scan
returns `t = 10`; queried alone over the full range `[0, 200]`, the same
member reports `t = 4 < 10` — the scan's result is not minimal among the
members' in-range hits.  (The only square root taken is `√1 = 1`, exact
also for `f64`.) -/
theorem claim_C6_counterexample :
    ((new_bvh_node [Hittable.MovingSphere 4 ⟨0, 0, 0⟩ ⟨0, 0, 50⟩ 0 1 1] 0 1
        (constRNG 0)).1
      = Hittable.BvhNode (Hittable.MovingSphere 4 ⟨0, 0, 0⟩ ⟨0, 0, 50⟩ 0 1 1)
          (Hittable.MovingSphere 4 ⟨0, 0, 0⟩ ⟨0, 0, 50⟩ 0 1 1)
          ⟨⟨-1, -1, -1⟩, ⟨1, 1, 51⟩⟩) ∧
    (scanT defaultFns
        [Hittable.XYRect 9 0 1 0 1 (-45),
         Hittable.BvhNode (Hittable.MovingSphere 4 ⟨0, 0, 0⟩ ⟨0, 0, 50⟩ 0 1 1)
           (Hittable.MovingSphere 4 ⟨0, 0, 0⟩ ⟨0, 0, 50⟩ 0 1 1)
           ⟨⟨-1, -1, -1⟩, ⟨1, 1, 51⟩⟩]
        ⟨⟨0, 0, -55⟩, ⟨0, 0, 1⟩, -1⟩ (.fin 0) (.fin 200) (constRNG 0) = some 10) ∧
    (hitT defaultFns
        (Hittable.BvhNode (Hittable.MovingSphere 4 ⟨0, 0, 0⟩ ⟨0, 0, 50⟩ 0 1 1)
           (Hittable.MovingSphere 4 ⟨0, 0, 0⟩ ⟨0, 0, 50⟩ 0 1 1)
           ⟨⟨-1, -1, -1⟩, ⟨1, 1, 51⟩⟩)
        ⟨⟨0, 0, -55⟩, ⟨0, 0, 1⟩, -1⟩ (.fin 0) (.fin 200) (constRNG 0) = some 4) ∧
    (4 : ℚ) < 10 := by
  refine ⟨?_, ?_, ?_, by norm_num⟩
  · norm_num [new_bvh_node, random_int_range, random_double_range, truncToInt, constRNG,
      mkBvhNode, Hittable.bounding_box, moving_sphere_bounding_box, get_center_at_time,
      AABB.new, AABB.surrounding_box]
  · norm_num [scanT, hit_hittables, Hittable.hit, bvh_node_hit, AABB.hit, slabAxis,
      TB.maxT, TB.minT, TB.leB, TB.ltB, xy_rect_hit, sphere_hit, get_center_at_time,
      Vector3.dot, Vector3.length_squared, Vector3.divQ, defaultFns, ratSqrt,
      Ray.at, HitRecord.new, HitRecord.set_face_normal, sphere_uv, PI]
  · norm_num [hitT, Hittable.hit, bvh_node_hit, AABB.hit, slabAxis,
      TB.maxT, TB.minT, TB.leB, TB.ltB, sphere_hit, get_center_at_time,
      Vector3.dot, Vector3.length_squared, Vector3.divQ, defaultFns, ratSqrt,
      Ray.at, HitRecord.new, HitRecord.set_face_normal, sphere_uv, PI]

/-- C6, amended: for a list of medium-free members whose hits are ranged
and narrowing-stable (true of spheres, rectangles and well-boxed nodes;
see the counterexample for a BVH member whose stored box hides a nearer
hit at a query time outside its build coverage), `hit_hittables` returns
`none` exactly when no member hits the query range, and otherwise the
record of a member whose reported distance is minimal among all members'
full-range reports. -/
theorem claim_C6_amended (F : RealFns) (l : List Hittable) (ray : Ray) (a b : TB) (g : RNG)
    (hm : ∀ h ∈ l, noMedium h = true) (hr : ∀ h ∈ l, RangedT F h)
    (hn : ∀ h ∈ l, NarrowT F h) :
    ((hit_hittables F l ray a b g).1 = none ↔ ∀ h ∈ l, (h.hit F ray a b g).1 = none)
  ∧ ∀ rec, (hit_hittables F l ray a b g).1 = some rec →
      (∃ h ∈ l, hitT F h ray a b g = some rec.t) ∧
      ∀ h ∈ l, ∀ q, hitT F h ray a b g = some q → rec.t ≤ q := by
  have hml : noMediumList l = true := (noMediumList_iff l).mpr hm
  constructor
  · have h1 : (hit_hittables F l ray a b g).1 = none ↔ scanT F l ray a b g = none := by
      simp [scanT]
    rw [h1, scan_best F ray a l hml hr hn b g, bestT_none_iff]
    constructor
    · intro hall h hl
      have := hall h hl
      simpa [hitT] using this
    · intro hall h hl
      simp [hitT, hall h hl]
  · intro rec hrec
    have hs : scanT F l ray a b g = some rec.t := by simp [scanT, hrec]
    rw [scan_best F ray a l hml hr hn b g] at hs
    exact bestT_spec F ray a b g l rec.t hs

/-- C6, witness: the amended statement on a concrete two-rectangle list,
with the hypotheses discharged by the rectangle lemmas. -/
theorem claim_C6_witness :
    ((hit_hittables defaultFns [Hittable.XYRect 1 0 1 0 1 5, Hittable.XYRect 2 0 1 0 1 7]
        ⟨⟨1 / 2, 1 / 2, 0⟩, ⟨0, 0, 1⟩, 0⟩ (.fin 0) (.fin 100) (constRNG 0)).1 = none ↔
      ∀ h ∈ [Hittable.XYRect 1 0 1 0 1 5, Hittable.XYRect 2 0 1 0 1 7],
        (h.hit defaultFns ⟨⟨1 / 2, 1 / 2, 0⟩, ⟨0, 0, 1⟩, 0⟩
          (.fin 0) (.fin 100) (constRNG 0)).1 = none)
  ∧ ∀ rec, (hit_hittables defaultFns [Hittable.XYRect 1 0 1 0 1 5, Hittable.XYRect 2 0 1 0 1 7]
        ⟨⟨1 / 2, 1 / 2, 0⟩, ⟨0, 0, 1⟩, 0⟩ (.fin 0) (.fin 100) (constRNG 0)).1 = some rec →
      (∃ h ∈ [Hittable.XYRect 1 0 1 0 1 5, Hittable.XYRect 2 0 1 0 1 7],
        hitT defaultFns h ⟨⟨1 / 2, 1 / 2, 0⟩, ⟨0, 0, 1⟩, 0⟩
          (.fin 0) (.fin 100) (constRNG 0) = some rec.t) ∧
      ∀ h ∈ [Hittable.XYRect 1 0 1 0 1 5, Hittable.XYRect 2 0 1 0 1 7], ∀ q,
        hitT defaultFns h ⟨⟨1 / 2, 1 / 2, 0⟩, ⟨0, 0, 1⟩, 0⟩
          (.fin 0) (.fin 100) (constRNG 0) = some q → rec.t ≤ q :=
  claim_C6_amended defaultFns [Hittable.XYRect 1 0 1 0 1 5, Hittable.XYRect 2 0 1 0 1 7]
    ⟨⟨1 / 2, 1 / 2, 0⟩, ⟨0, 0, 1⟩, 0⟩ (.fin 0) (.fin 100) (constRNG 0)
    (by intro h hl
        rcases List.mem_cons.mp hl with rfl | hl'
        · simp [noMedium]
        · rcases List.mem_cons.mp hl' with rfl | hl''
          · simp [noMedium]
          · exact absurd hl'' (by simp))
    (by intro h hl
        rcases List.mem_cons.mp hl with rfl | hl'
        · exact xy_rect_rangedT defaultFns 1 0 1 0 1 5
        · rcases List.mem_cons.mp hl' with rfl | hl''
          · exact xy_rect_rangedT defaultFns 2 0 1 0 1 7
          · exact absurd hl'' (by simp))
    (by intro h hl
        rcases List.mem_cons.mp hl with rfl | hl'
        · exact xy_rect_narrowT defaultFns 1 0 1 0 1 5
        · rcases List.mem_cons.mp hl' with rfl | hl''
          · exact xy_rect_narrowT defaultFns 2 0 1 0 1 7
          · exact absurd hl'' (by simp))

/-- C2, amended: for a non-empty list of medium-free members whose hits are
ranged, narrowing-stable, and slab-sound for the queried ray, lower bound,
and build times (spheres and rectangles under a padded box satisfy all
three), the hit of a BVH built over the list by `new_bvh_node` and the hit
of the brute-force linear scan `hit_hittables` report the same parametric
distance (both none, or both the nearest member distance), for every upper
bound, build stream, and query stream.  As stated (for arbitrary members
with boxes) the claim fails: tie-breaking differs between the two
traversals, and a member BvhNode whose stored box misses its own hits can
be pruned by one traversal and not the other. -/
theorem claim_C2_amended (F : RealFns) (l : List Hittable) (ray : Ray) (a b : TB)
    (t0 t1 : ℚ) (g gb : RNG) (hne : l ≠ [])
    (hm : ∀ h ∈ l, noMedium h = true) (hr : ∀ h ∈ l, RangedT F h)
    (hn : ∀ h ∈ l, NarrowT F h) (hs : ∀ h ∈ l, SlabOK F h ray a t0 t1) :
    hitT F (new_bvh_node l t0 t1 gb).1 ray a b g =
      ((hit_hittables F l ray a b g).1).map (fun rec => rec.t) := by
  have hbuild :=
    (new_bvh_node_exact F ray a t0 t1 l.length l le_rfl hne hm hr hn hs gb).2.2 b g
  rw [hbuild, ← scan_best F ray a l ((noMediumList_iff l).mpr hm) hr hn b g]
  rfl

/-- C2, witness: the amended statement on a concrete two-rectangle list,
with the hypotheses discharged by the rectangle lemmas. -/
theorem claim_C2_witness :
    hitT defaultFns
      (new_bvh_node [Hittable.XYRect 1 0 1 0 1 5, Hittable.XYRect 2 0 1 0 1 7]
        0 1 (constRNG 0)).1
      ⟨⟨1 / 2, 1 / 2, 0⟩, ⟨0, 0, 1⟩, 0⟩ (.fin 0) (.fin 100) (constRNG 0) =
    ((hit_hittables defaultFns [Hittable.XYRect 1 0 1 0 1 5, Hittable.XYRect 2 0 1 0 1 7]
        ⟨⟨1 / 2, 1 / 2, 0⟩, ⟨0, 0, 1⟩, 0⟩ (.fin 0) (.fin 100) (constRNG 0)).1).map
      (fun rec => rec.t) :=
  claim_C2_amended defaultFns [Hittable.XYRect 1 0 1 0 1 5, Hittable.XYRect 2 0 1 0 1 7]
    ⟨⟨1 / 2, 1 / 2, 0⟩, ⟨0, 0, 1⟩, 0⟩ (.fin 0) (.fin 100) 0 1 (constRNG 0) (constRNG 0)
    (by simp)
    (by intro h hl
        rcases List.mem_cons.mp hl with rfl | hl'
        · simp [noMedium]
        · rcases List.mem_cons.mp hl' with rfl | hl''
          · simp [noMedium]
          · exact absurd hl'' (by simp))
    (by intro h hl
        rcases List.mem_cons.mp hl with rfl | hl'
        · exact xy_rect_rangedT defaultFns 1 0 1 0 1 5
        · rcases List.mem_cons.mp hl' with rfl | hl''
          · exact xy_rect_rangedT defaultFns 2 0 1 0 1 7
          · exact absurd hl'' (by simp))
    (by intro h hl
        rcases List.mem_cons.mp hl with rfl | hl'
        · exact xy_rect_narrowT defaultFns 1 0 1 0 1 5
        · rcases List.mem_cons.mp hl' with rfl | hl''
          · exact xy_rect_narrowT defaultFns 2 0 1 0 1 7
          · exact absurd hl'' (by simp))
    (by intro h hl
        rcases List.mem_cons.mp hl with rfl | hl'
        · exact xy_rect_slabOK defaultFns 1 0 1 0 1 5 (1 / 2) (1 / 2) 0 0 0 0 1
            (by norm_num) (by norm_num) (by norm_num) (by norm_num) (by norm_num)
        · rcases List.mem_cons.mp hl' with rfl | hl''
          · exact xy_rect_slabOK defaultFns 2 0 1 0 1 7 (1 / 2) (1 / 2) 0 0 0 0 1
              (by norm_num) (by norm_num) (by norm_num) (by norm_num) (by norm_num)
          · exact absurd hl'' (by simp))

/-- C4: the claim says a returned `t` lies in the half-open interval
`(t_min, t_max]`, with `t_min` itself excluded, and is the nearest
intersection in the interval.  The code compares with `t < t_min` /
`t > t_max`, so the interval is CLOSED at both ends and `t = t_min` is
accepted (the counterexample exhibits a sphere root at exactly `t_min`).
Amended, for the two primitives the claim cites: (1) a sphere hit's `t`
lies in the closed interval `[t_min, t_max]`; (2) an `XYRect` hit's `t`
lies in the closed interval, and is the unique plane crossing, hence the
nearest intersection; (3) a sphere hit is nearest: when the direction is
nonzero and the square-root stand-in is exact and nonnegative on the
discriminant, no parameter of the ray strictly between the lower bound
and the returned `t` lies on the sphere. -/
theorem claim_C4_amended (F : RealFns) :
    (∀ (m : MaterialHandle) (c : Vector3) (r : ℚ) (ray : Ray) (a b : TB) (g : RNG) (q : ℚ),
      hitT F (.Sphere m c r) ray a b g = some q →
        TB.leB a (.fin q) = true ∧ TB.leB (.fin q) b = true)
  ∧ (∀ (m : MaterialHandle) (x0 x1 y0 y1 k : ℚ) (ray : Ray) (a b : TB) (g : RNG) (q : ℚ),
      hitT F (.XYRect m x0 x1 y0 y1 k) ray a b g = some q →
        (TB.leB a (.fin q) = true ∧ TB.leB (.fin q) b = true) ∧
        ∀ t' : ℚ, ray.direction.z ≠ 0 → (ray.at t').z = k → t' = q)
  ∧ (∀ (m : MaterialHandle) (c : Vector3) (r : ℚ) (ray : Ray) (a b : TB) (g : RNG) (q : ℚ),
      ray.direction.length_squared ≠ 0 →
      0 ≤ F.sqrtQ (Vector3.dot (ray.origin - c) ray.direction *
            Vector3.dot (ray.origin - c) ray.direction -
            ray.direction.length_squared * ((ray.origin - c).length_squared - r * r)) →
      F.sqrtQ (Vector3.dot (ray.origin - c) ray.direction *
            Vector3.dot (ray.origin - c) ray.direction -
            ray.direction.length_squared * ((ray.origin - c).length_squared - r * r)) *
        F.sqrtQ (Vector3.dot (ray.origin - c) ray.direction *
            Vector3.dot (ray.origin - c) ray.direction -
            ray.direction.length_squared * ((ray.origin - c).length_squared - r * r)) =
        Vector3.dot (ray.origin - c) ray.direction *
            Vector3.dot (ray.origin - c) ray.direction -
            ray.direction.length_squared * ((ray.origin - c).length_squared - r * r) →
      hitT F (.Sphere m c r) ray a b g = some q →
      ∀ t' : ℚ, TB.leB a (.fin t') = true → t' < q →
        Vector3.dot (ray.at t' - c) (ray.at t' - c) ≠ r * r) := by
  refine ⟨?_, ?_, ?_⟩
  · intro m c r ray a b g q hq
    exact sphere_rangedT F m c r ray a b g q hq
  · intro m x0 x1 y0 y1 k ray a b g q hq
    refine ⟨xy_rect_rangedT F m x0 x1 y0 y1 k ray a b g q hq, ?_⟩
    intro t' hdz hz
    rw [xy_rect_hitT_eq] at hq
    split at hq
    · exact absurd hq (by simp)
    · injection hq with hq
      subst hq
      have hz' : ray.origin.z + t' * ray.direction.z = k := by
        simpa [Ray.at] using hz
      rw [eq_div_iff hdz]
      linarith
  · intro m c r ray a b g q haq hs0 hsq hq t' ht'a ht'q hdot
    have haqpos : 0 < ray.direction.length_squared :=
      lt_of_le_of_ne (length_squared_nonneg _) (Ne.symm haq)
    rw [hitT_sphere, sphere_hit_t_eq] at hq
    dsimp only at hq
    have hquadz : ray.direction.length_squared * (t' * t') +
        2 * Vector3.dot (ray.origin - c) ray.direction * t' +
        ((ray.origin - c).length_squared - r * r) = 0 := by
      have h := sphere_point_quadratic c r t' ray
      rw [hdot] at h
      linarith
    have hfac := sphere_root_factor (Vector3.dot (ray.origin - c) ray.direction)
      ray.direction.length_squared ((ray.origin - c).length_squared - r * r)
      (F.sqrtQ (Vector3.dot (ray.origin - c) ray.direction *
        Vector3.dot (ray.origin - c) ray.direction -
        ray.direction.length_squared * ((ray.origin - c).length_squared - r * r)))
      t' haq hsq
    have hzero : ray.direction.length_squared *
        (t' - (-(Vector3.dot (ray.origin - c) ray.direction) -
          F.sqrtQ (Vector3.dot (ray.origin - c) ray.direction *
            Vector3.dot (ray.origin - c) ray.direction -
            ray.direction.length_squared * ((ray.origin - c).length_squared - r * r))) /
          ray.direction.length_squared) *
        (t' - (-(Vector3.dot (ray.origin - c) ray.direction) +
          F.sqrtQ (Vector3.dot (ray.origin - c) ray.direction *
            Vector3.dot (ray.origin - c) ray.direction -
            ray.direction.length_squared * ((ray.origin - c).length_squared - r * r))) /
          ray.direction.length_squared) = 0 := by
      rw [hfac]
      linarith
    have ht12 : t' = (-(Vector3.dot (ray.origin - c) ray.direction) -
          F.sqrtQ (Vector3.dot (ray.origin - c) ray.direction *
            Vector3.dot (ray.origin - c) ray.direction -
            ray.direction.length_squared * ((ray.origin - c).length_squared - r * r))) /
          ray.direction.length_squared ∨
        t' = (-(Vector3.dot (ray.origin - c) ray.direction) +
          F.sqrtQ (Vector3.dot (ray.origin - c) ray.direction *
            Vector3.dot (ray.origin - c) ray.direction -
            ray.direction.length_squared * ((ray.origin - c).length_squared - r * r))) /
          ray.direction.length_squared := by
      rcases mul_eq_zero.mp hzero with h | h
      · rcases mul_eq_zero.mp h with h' | h'
        · exact absurd h' haq
        · exact Or.inl (sub_eq_zero.mp h')
      · exact Or.inr (sub_eq_zero.mp h)
    have hr12 : (-(Vector3.dot (ray.origin - c) ray.direction) -
          F.sqrtQ (Vector3.dot (ray.origin - c) ray.direction *
            Vector3.dot (ray.origin - c) ray.direction -
            ray.direction.length_squared * ((ray.origin - c).length_squared - r * r))) /
          ray.direction.length_squared ≤
        (-(Vector3.dot (ray.origin - c) ray.direction) +
          F.sqrtQ (Vector3.dot (ray.origin - c) ray.direction *
            Vector3.dot (ray.origin - c) ray.direction -
            ray.direction.length_squared * ((ray.origin - c).length_squared - r * r))) /
          ray.direction.length_squared := by
      rw [div_eq_mul_inv, div_eq_mul_inv]
      exact mul_le_mul_of_nonneg_right (by linarith) (inv_nonneg.mpr haqpos.le)
    split at hq
    · exact absurd hq (by simp)
    · split at hq
      · injection hq with hq
        subst hq
        rcases ht12 with h | h
        · exact absurd ht'q (by rw [h]; exact lt_irrefl _)
        · rw [h] at ht'q
          linarith
      · rename_i hg1
        rw [not_not] at hg1
        split at hq
        · rename_i hg2
          push_neg at hg2
          injection hq with hq
          subst hq
          rcases ht12 with h | h
          · subst h
            rcases hg1 with hA | hB
            · rw [TB.not_ltB_of_leB ht'a] at hA
              exact Bool.false_ne_true hA
            · have hR2b : TB.leB (.fin ((-(Vector3.dot (ray.origin - c) ray.direction) +
                  F.sqrtQ (Vector3.dot (ray.origin - c) ray.direction *
                    Vector3.dot (ray.origin - c) ray.direction -
                    ray.direction.length_squared *
                      ((ray.origin - c).length_squared - r * r))) /
                  ray.direction.length_squared)) b = true := by
                cases hX : TB.ltB b (.fin ((-(Vector3.dot (ray.origin - c) ray.direction) +
                    F.sqrtQ (Vector3.dot (ray.origin - c) ray.direction *
                      Vector3.dot (ray.origin - c) ray.direction -
                      ray.direction.length_squared *
                        ((ray.origin - c).length_squared - r * r))) /
                    ray.direction.length_squared))
                · exact leB_of_ltB_eq_false hX
                · exact absurd hX hg2.2
              have hR1b := TB.leB_trans ((TB.leB_iff_fin _ _).mpr hr12) hR2b
              rw [TB.not_ltB_of_leB hR1b] at hB
              exact Bool.false_ne_true hB
          · exact absurd ht'q (by rw [h]; exact lt_irrefl _)
        · exact absurd hq (by simp)

/-- C4, witness: the amended nearest-hit statement for the concrete unit
sphere scenario: the ray parameter `0` (which lies in `[t_min, rec.t)`)
is not on the sphere. -/
theorem claim_C4_witness :
    Vector3.dot (Ray.at ⟨⟨0, 0, -5⟩, ⟨0, 0, 1⟩, 0⟩ 0 - ⟨0, 0, 0⟩)
      (Ray.at ⟨⟨0, 0, -5⟩, ⟨0, 0, 1⟩, 0⟩ 0 - ⟨0, 0, 0⟩) ≠ 1 * 1 :=
  (claim_C4_amended defaultFns).2.2 0 ⟨0, 0, 0⟩ 1 ⟨⟨0, 0, -5⟩, ⟨0, 0, 1⟩, 0⟩
    (.fin 0) (.fin 100) (constRNG 0) 4
    (by norm_num [Vector3.length_squared])
    (by norm_num [Vector3.dot, Vector3.length_squared, defaultFns, ratSqrt])
    (by norm_num [Vector3.dot, Vector3.length_squared, defaultFns, ratSqrt])
    (by norm_num [hitT, Hittable.hit, sphere_hit, Vector3.dot, Vector3.length_squared,
      Vector3.divQ, defaultFns, ratSqrt, TB.ltB, Ray.at, HitRecord.new,
      HitRecord.set_face_normal])
    0 (by norm_num [TB.leB, TB.ltB]) (by norm_num)

/-- C5: as claimed, the invariant fails: a `RotateY` record is re-oriented
against the rotated local-frame ray rather than the queried world ray (the
counterexample exhibits `dot(r.direction, normal) > 0` and a `front_face`
flag disagreeing with the world-frame sign test), and a `ConstantMedium`
record carries the fixed normal `(1,0,0)`.  Amended: (1) `set_face_normal`
itself guarantees, for the ray IT is given, that `front_face` is the sign
test of the un-flipped outward normal (`true` iff `dot < 0`, so a grazing
`dot = 0` is recorded as a back face), that the stored normal opposes that
ray (`dot ≤ 0`), and that flipping preserves the squared length; (2) every
record returned by an orientable tree (no `RotateY`, no `ConstantMedium`)
opposes the queried ray; (3) a sphere record's normal is unit-length given
nonzero direction, nonzero radius, and a square root exact on the queried
discriminant (for an inexact square root the claimed unit length fails);
(4) a rectangle record's normal is unit-length with `front_face` the sign
test against the plane normal. -/
theorem claim_C5_amended (F : RealFns) :
    (∀ (rec : HitRecord) (ray : Ray) (n : Vector3),
      ((rec.set_face_normal ray n).front_face = true ↔
        Vector3.dot ray.direction n < 0) ∧
      Vector3.dot ray.direction (rec.set_face_normal ray n).normal ≤ 0 ∧
      ((rec.set_face_normal ray n).normal).length_squared = n.length_squared)
  ∧ (∀ (h : Hittable), orientable h = true → ∀ (ray : Ray) (a b : TB) (g : RNG)
      (rec : HitRecord), (h.hit F ray a b g).1 = some rec →
        Vector3.dot ray.direction rec.normal ≤ 0)
  ∧ (∀ (m : MaterialHandle) (c : Vector3) (r : ℚ) (ray : Ray) (a b : TB) (g : RNG)
      (rec : HitRecord),
      ray.direction.length_squared ≠ 0 → r ≠ 0 →
      F.sqrtQ (Vector3.dot (ray.origin - c) ray.direction *
          Vector3.dot (ray.origin - c) ray.direction -
          ray.direction.length_squared * ((ray.origin - c).length_squared - r * r)) *
        F.sqrtQ (Vector3.dot (ray.origin - c) ray.direction *
          Vector3.dot (ray.origin - c) ray.direction -
          ray.direction.length_squared * ((ray.origin - c).length_squared - r * r)) =
        Vector3.dot (ray.origin - c) ray.direction *
          Vector3.dot (ray.origin - c) ray.direction -
          ray.direction.length_squared * ((ray.origin - c).length_squared - r * r) →
      ((.Sphere m c r : Hittable).hit F ray a b g).1 = some rec →
      rec.normal.length_squared = 1)
  ∧ (∀ (m : MaterialHandle) (x0 x1 y0 y1 k : ℚ) (ray : Ray) (a b : TB) (g : RNG)
      (rec : HitRecord),
      ((.XYRect m x0 x1 y0 y1 k : Hittable).hit F ray a b g).1 = some rec →
      rec.normal.length_squared = 1 ∧
      (rec.front_face = true ↔ ray.direction.z < 0)) := by
  refine ⟨?_, ?_, ?_, ?_⟩
  · intro rec ray n
    exact ⟨set_face_normal_front_face rec ray n, set_face_normal_dot rec ray n,
      set_face_normal_length rec ray n⟩
  · intro h ho ray a b g rec hrec
    exact hit_orient F h ho ray a b g rec hrec
  · intro m c r ray a b g rec haq hr hsq hrec
    exact sphere_unit_normal F m c r ray a b g rec haq hr hsq hrec
  · intro m x0 x1 y0 y1 k ray a b g rec hrec
    exact xy_rect_record F m x0 x1 y0 y1 k ray a b g rec hrec

/-- C5, witness: the orientation invariant applied to a concrete
rectangle record: the returned normal `(0,0,-1)` opposes the ray direction
`(0,0,1)`. -/
theorem claim_C5_witness :
    Vector3.dot (⟨⟨1 / 2, 1 / 2, 0⟩, ⟨0, 0, 1⟩, 0⟩ : Ray).direction
      (⟨⟨1 / 2, 1 / 2, 5⟩, ⟨0, 0, -1⟩, 5, false, 1, 1 / 2, 1 / 2⟩ : HitRecord).normal ≤ 0 :=
  (claim_C5_amended defaultFns).2.1 (.XYRect 1 0 1 0 1 5) (by simp [orientable])
    ⟨⟨1 / 2, 1 / 2, 0⟩, ⟨0, 0, 1⟩, 0⟩ (.fin 0) (.fin 100) (constRNG 0)
    ⟨⟨1 / 2, 1 / 2, 5⟩, ⟨0, 0, -1⟩, 5, false, 1, 1 / 2, 1 / 2⟩
    (by norm_num [Hittable.hit, xy_rect_hit, TB.ltB, Ray.at, HitRecord.new,
      HitRecord.set_face_normal, Vector3.dot])

end RTOW
